import Mathlib

/-!
Verification development for a limit-order-book matching engine.

The Lean definitions below are a shallow embedding of the Python sources
`src/core/order.py`, `src/core/trade.py`, `src/core/orderbook.py` and
`src/core/matching_engine.py`:

* Python `Decimal` prices and quantities become `ℚ` (the sources only add,
  subtract, compare and take `min`, all of which are exact on decimals, and
  decimals embed into `ℚ`).
* The per-book structures (`dict` price → level together with a lazy
  binary heap of prices) are modelled by a price-sorted list of levels:
  the heap only ever serves best-price queries after stale/empty entries
  are skipped, so its observable behaviour is exactly "the best price among
  the non-empty levels of the dict", which the sorted list provides at its
  head.  Level deques hold the order objects by reference and the same
  objects sit in the id map, so the aliased mutable objects are modelled
  arena-style: levels store order ids and every read/write of a resting
  order goes through the book's id map.
* Methods that can raise (`Order.__init__`, `Order.fill`, `Order.cancel`,
  `OrderBook.add_order`) return `Except String _`; an `.error` models an
  escaping Python exception.
* Timestamps and generated UUIDs are irrelevant to the verified claims;
  id generation is modelled by passing the generated id as an argument.
-/

/-- Price scalar: exact decimal, embedded in `ℚ`. -/
abbrev Price := ℚ

/-- Quantity scalar: exact decimal, embedded in `ℚ`. -/
abbrev Qty := ℚ

/-- `OrderType` enum from `order.py`. -/
inductive OrderType
  | MARKET
  | LIMIT
  | IOC
  | FOK
deriving DecidableEq

/-- `OrderSide` enum from `order.py`. -/
inductive OrderSide
  | BUY
  | SELL
deriving DecidableEq

/-- `OrderStatus` enum from `order.py`. -/
inductive OrderStatus
  | PENDING
  | PARTIALLY_FILLED
  | FILLED
  | CANCELLED
  | REJECTED
deriving DecidableEq

/-- A fill record (`Fill` in `order.py`); the uuid and timestamp are dropped. -/
structure Fill where
  orderId : String
  quantity : Qty
  price : Price
deriving DecidableEq

/-- An order (`Order` in `order.py`).  After a successful `__init__` the
`price` attribute always holds an actual `Decimal` (construction with
`price=None` raises, see `Order.create`), so the field is a plain `Price`. -/
structure Order where
  symbol : String
  orderId : String
  orderType : OrderType
  side : OrderSide
  quantity : Qty
  price : Price
  filledQuantity : Qty
  remainingQuantity : Qty
  status : OrderStatus
  fills : List Fill
deriving DecidableEq

/-- `Order.__init__`.  `generatedId` stands for the `str(uuid.uuid4())` the
source would generate; `order_id or str(uuid.uuid4())` treats an empty
supplied string as absent.  The final `self.price = Decimal(str(price))`
raises `decimal.InvalidOperation` when `price` is `None` (i.e. for every
MARKET order submitted without a price), which is modelled by the last
`.error` branch. -/
def Order.create (symbol : String) (orderType : OrderType) (side : OrderSide)
    (quantity : Qty) (price : Option Price) (suppliedId : Option String)
    (generatedId : String) : Except String Order :=
  if quantity ≤ 0 then .error "Quantity must be greater than zero"
  else if (orderType = .LIMIT ∨ orderType = .IOC ∨ orderType = .FOK) ∧ price = none then
    .error "Price must be specified"
  else
    match price with
    | some p =>
      if p ≤ 0 then .error "Price must be greater than zero"
      else
        .ok { symbol := symbol
              orderId := match suppliedId with
                         | some s => if s = "" then generatedId else s
                         | none => generatedId
              orderType := orderType
              side := side
              quantity := quantity
              price := p
              filledQuantity := 0
              remainingQuantity := quantity
              status := .PENDING
              fills := [] }
    | none =>
      -- self.price = Decimal(str(None)) raises decimal.InvalidOperation
      .error "decimal.InvalidOperation"

/-- `Order.is_filled` property. -/
def Order.isFilled (o : Order) : Prop := o.remainingQuantity = 0

instance (o : Order) : Decidable o.isFilled := by
  unfold Order.isFilled; infer_instance

/-- `Order.fill`: validates the quantity, records a `Fill`, updates the
mutable state and the status. -/
def Order.fill (o : Order) (quantity : Qty) (price : Price) : Except String Order :=
  if quantity ≤ 0 then .error "fill quantity must be greater than zero"
  else if o.remainingQuantity < quantity then .error "fill quantity exceeds remaining quantity"
  else
    let remaining := o.remainingQuantity - quantity
    .ok { o with
          filledQuantity := o.filledQuantity + quantity
          remainingQuantity := remaining
          fills := o.fills ++ [{ orderId := o.orderId, quantity := quantity, price := price }]
          status := if remaining = 0 then .FILLED else .PARTIALLY_FILLED }

/-- `Order.cancel`: raises when the order is already FILLED or CANCELLED. -/
def Order.cancel (o : Order) : Except String Order :=
  if o.status = .FILLED ∨ o.status = .CANCELLED then
    .error "Cannot cancel an order in this state"
  else
    .ok { o with status := .CANCELLED }

/-- A trade (`Trade` in `trade.py`); uuid and timestamp are dropped. -/
structure Trade where
  symbol : String
  price : Price
  quantity : Qty
  makerOrderId : String
  takerOrderId : String
  aggressorSide : OrderSide
deriving DecidableEq

/-! ### Association lists

Python `dict`s keyed by strings (`OrderBook.orders`,
`MatchingEngine.order_books`, `trade_history`, `all_orders`) are modelled
as association lists; assignment replaces the value of an existing key in
place, otherwise appends. -/

/-- Dictionary lookup. -/
def alookup {α : Type} (k : String) : List (String × α) → Option α
  | [] => none
  | kv :: rest => if kv.1 = k then some kv.2 else alookup k rest

/-- Dictionary assignment. -/
def ainsert {α : Type} (k : String) (v : α) : List (String × α) → List (String × α)
  | [] => [(k, v)]
  | kv :: rest => if kv.1 = k then (k, v) :: rest else kv :: ainsert k v rest

/-- The keys of a dictionary. -/
def akeys {α : Type} (m : List (String × α)) : List String := m.map (·.1)

/-- The id index of a book: `order_id → Order`. -/
abbrev OrderMap := List (String × Order)

/-- A price level (`PriceLevel` in `orderbook.py`).  The FIFO deque of
order objects becomes a FIFO list of order ids into the book's id map. -/
structure PriceLevel where
  price : Price
  orderIds : List String
  totalQuantity : Qty
deriving DecidableEq

/-- `PriceLevel.add_order`. -/
def PriceLevel.addOrder (lv : PriceLevel) (o : Order) : PriceLevel :=
  { lv with orderIds := lv.orderIds ++ [o.orderId]
            totalQuantity := lv.totalQuantity + o.remainingQuantity }

/-- `PriceLevel.remove_order`: removes the order if present and subtracts
its current remaining quantity; returns whether it was found. -/
def PriceLevel.removeOrder (lv : PriceLevel) (o : Order) : PriceLevel × Bool :=
  if lv.orderIds.contains o.orderId then
    ({ lv with orderIds := lv.orderIds.erase o.orderId
               totalQuantity := lv.totalQuantity - o.remainingQuantity }, true)
  else (lv, false)

/-- The order book (`OrderBook` in `orderbook.py`).  `bid_levels`/`ask_levels`
(dict) plus the lazy price heaps are modelled by price-sorted level lists:
bids descending, asks ascending; see the module comment. -/
structure OrderBook where
  symbol : String
  bidLevels : List PriceLevel
  askLevels : List PriceLevel
  orders : OrderMap
deriving DecidableEq

/-- A fresh book (`OrderBook.__init__`). -/
def OrderBook.empty (symbol : String) : OrderBook :=
  { symbol := symbol, bidLevels := [], askLevels := [], orders := [] }

/-- `get_best_bid`: the highest bid price among non-empty levels.  The lazy
heap pops stale entries until it finds a price whose dict level exists and
is non-empty; on the descending-sorted bid list that is the first
non-empty level. -/
def OrderBook.getBestBid (b : OrderBook) : Option Price :=
  (b.bidLevels.find? (fun lv => !lv.orderIds.isEmpty)).map (·.price)

/-- `get_best_ask`: the lowest ask price among non-empty levels. -/
def OrderBook.getBestAsk (b : OrderBook) : Option Price :=
  (b.askLevels.find? (fun lv => !lv.orderIds.isEmpty)).map (·.price)

/-- `OrderBook._is_marketable`.  `best_ask`/`best_bid` are positive
decimals whenever present, so Python's truthiness test on them is just
presence. -/
def OrderBook.isMarketable (b : OrderBook) (order : Order) : Bool :=
  if order.orderType = OrderType.MARKET then true
  else if order.side = OrderSide.BUY then
    match b.getBestAsk with
    | some bestAsk => decide (bestAsk ≤ order.price)
    | none => false
  else
    match b.getBestBid with
    | some bestBid => decide (order.price ≤ bestBid)
    | none => false

/-- Inner matching loop of `OrderBook._match_order` (the `while` over orders
at one price level), acting on the level's id queue and aggregate quantity
and on the book's id map.

Each iteration reads the head resting order, trades
`min(incoming.remaining, resting.remaining)` at the resting order's price,
fills both orders, and then either pops the head (when the resting order is
fully filled — note the source subtracts the popped order's *current*
remaining quantity, which the preceding fill has already driven to zero) or
subtracts the traded quantity from the aggregate and leaves the partially
filled maker at the head.  In the latter case the traded quantity was the
whole incoming remainder (`min` picked the incoming side), so the `while`
guard `incoming.remaining > 0` fails on re-entry and the loop returns; the
second `.ok` branch returns directly, which is exactly that exit. -/
def matchAtLevel (symbol : String) :
    Order → OrderMap → List String → Qty →
      Except String (Order × OrderMap × List String × Qty × List Trade)
  | inc, m, [], tq => .ok (inc, m, [], tq, [])
  | inc, m, rid :: rest, tq =>
    if 0 < inc.remainingQuantity then
      match alookup rid m with
      | none =>
        -- unreachable in the arena model: the deque holds live objects
        .error "resting order missing from the id index"
      | some restingOrder =>
        let tradeQuantity := min inc.remainingQuantity restingOrder.remainingQuantity
        let tradePrice := restingOrder.price
        let trade : Trade :=
          { symbol := symbol
            price := tradePrice
            quantity := tradeQuantity
            makerOrderId := rid
            takerOrderId := inc.orderId
            aggressorSide := inc.side }
        match restingOrder.fill tradeQuantity tradePrice with
        | .error e => .error e
        | .ok resting' =>
          match inc.fill tradeQuantity tradePrice with
          | .error e => .error e
          | .ok inc' =>
            let m' := ainsert rid resting' m
            if resting'.remainingQuantity = 0 then
              -- resting order fully filled: pop_first_order subtracts its
              -- (now zero) remaining quantity from total_quantity
              match matchAtLevel symbol inc' m' rest (tq - resting'.remainingQuantity) with
              | .error e => .error e
              | .ok (inc'', m'', ids'', tq'', ts) => .ok (inc'', m'', ids'', tq'', trade :: ts)
            else
              .ok (inc', m', rid :: rest, tq - tradeQuantity, [trade])
    else .ok (inc, m, rid :: rest, tq, [])

/-- Outer matching loop of `OrderBook._match_order` (the `while` over best
opposing price levels).  `cmp` is the side's `price_comparator` lambda
(the `or Decimal(...)` fallbacks never fire because a constructed order's
price is a positive decimal).  The best opposing price is the head of the
sorted opposite-side list; stored levels are never empty, so the lazy-skip
of empty levels and the dead `continue` branch of the source cannot fire.
When the inner loop leaves the level non-empty the incoming order was
exhausted there, so the `while` guard fails on re-entry and the loop stops
with that level, price unchanged, put back in place. -/
def matchLevels (symbol : String) (cmp : Price → Bool) :
    Order → OrderMap → List PriceLevel →
      Except String (Order × OrderMap × List PriceLevel × List Trade)
  | inc, m, [] => .ok (inc, m, [], [])
  | inc, m, lv :: rest =>
    if 0 < inc.remainingQuantity then
      if inc.orderType ≠ OrderType.MARKET ∧ cmp lv.price = false then
        .ok (inc, m, lv :: rest, [])
      else
        match matchAtLevel symbol inc m lv.orderIds lv.totalQuantity with
        | .error e => .error e
        | .ok (inc', m', ids', tq', ts) =>
          if ids'.isEmpty then
            -- level emptied: prune it and continue with the next best price
            match matchLevels symbol cmp inc' m' rest with
            | .error e => .error e
            | .ok (inc'', m'', rest', ts') => .ok (inc'', m'', rest', ts ++ ts')
          else
            .ok (inc', m', { price := lv.price, orderIds := ids', totalQuantity := tq' } :: rest, ts)
    else .ok (inc, m, lv :: rest, [])

/-- Tail end of `OrderBook._match_order`: cancel an IOC residual, cancel a
not-fully-filled FOK.  There is no FOK pre-scan in the source. -/
def handleResidual (inc : Order) : Except String Order :=
  if inc.orderType = OrderType.IOC ∧ 0 < inc.remainingQuantity then inc.cancel
  else if inc.orderType = OrderType.FOK ∧ ¬ inc.isFilled then inc.cancel
  else .ok inc

/-- `OrderBook._match_order`: selects the opposing side and comparator by
the incoming side, runs the level loop, then the IOC/FOK residual step. -/
def OrderBook.matchOrder (b : OrderBook) (inc : Order) :
    Except String (Order × OrderBook × List Trade) :=
  if inc.side = OrderSide.BUY then
    match matchLevels b.symbol (fun p => decide (p ≤ inc.price)) inc b.orders b.askLevels with
    | .error e => .error e
    | .ok (inc', m', asks', ts) =>
      match handleResidual inc' with
      | .error e => .error e
      | .ok inc'' => .ok (inc'', { b with orders := m', askLevels := asks' }, ts)
  else
    match matchLevels b.symbol (fun p => decide (inc.price ≤ p)) inc b.orders b.bidLevels with
    | .error e => .error e
    | .ok (inc', m', bids', ts) =>
      match handleResidual inc' with
      | .error e => .error e
      | .ok inc'' => .ok (inc'', { b with orders := m', bidLevels := bids' }, ts)

/-- Sorted insertion of a fresh level into the ascending ask list, modelling
`heapq.heappush(self.ask_prices, price)` plus the dict insert. -/
def insertAskLevel (lv : PriceLevel) : List PriceLevel → List PriceLevel
  | [] => [lv]
  | l :: ls => if lv.price < l.price then lv :: l :: ls else l :: insertAskLevel lv ls

/-- Sorted insertion of a fresh level into the descending bid list, modelling
`heapq.heappush(self.bid_prices, -price)` plus the dict insert. -/
def insertBidLevel (lv : PriceLevel) : List PriceLevel → List PriceLevel
  | [] => [lv]
  | l :: ls => if l.price < lv.price then lv :: l :: ls else l :: insertBidLevel lv ls

/-- `OrderBook._add_to_book`: append the order to its price level, creating
the level first when absent. -/
def OrderBook.addToBook (b : OrderBook) (o : Order) : OrderBook :=
  if o.side = OrderSide.BUY then
    match b.bidLevels.find? (fun lv => decide (lv.price = o.price)) with
    | some _ =>
      { b with bidLevels := b.bidLevels.map (fun lv => if lv.price = o.price then lv.addOrder o else lv) }
    | none =>
      { b with bidLevels := insertBidLevel (PriceLevel.addOrder ⟨o.price, [], 0⟩ o) b.bidLevels }
  else
    match b.askLevels.find? (fun lv => decide (lv.price = o.price)) with
    | some _ =>
      { b with askLevels := b.askLevels.map (fun lv => if lv.price = o.price then lv.addOrder o else lv) }
    | none =>
      { b with askLevels := insertAskLevel (PriceLevel.addOrder ⟨o.price, [], 0⟩ o) b.askLevels }

/-- `OrderBook.add_order`: reject a symbol mismatch, register the order in
the id index, match if marketable, rest a LIMIT residual.  In the source the
id index aliases the live order object (it is stored before matching and
mutated in place); functionally the final state of the incoming order is
written to the index at return. -/
def OrderBook.addOrder (b : OrderBook) (order : Order) : Except String (OrderBook × List Trade) :=
  if order.symbol ≠ b.symbol then
    .error "Order symbol does not match order book symbol"
  else
    match (if b.isMarketable order then b.matchOrder order else .ok (order, b, [])) with
    | .error e => .error e
    | .ok (order', b', trades) =>
      let b'' :=
        if 0 < order'.remainingQuantity ∧ order'.orderType = OrderType.LIMIT then
          b'.addToBook order'
        else b'
      .ok ({ b'' with orders := ainsert order.orderId order' b''.orders }, trades)

/-- Helper for `OrderBook._remove_from_book` on one side's levels: look up
the level at the order's price, remove the order from it, and prune the
level if it ends up empty. -/
def removeOrderFromLevels (o : Order) (levels : List PriceLevel) : List PriceLevel × Bool :=
  match levels.find? (fun lv => decide (lv.price = o.price)) with
  | none => (levels, false)
  | some lv =>
    let (lv', removed) := lv.removeOrder o
    let updated := levels.map (fun l => if l.price = o.price then lv' else l)
    (if lv'.orderIds.isEmpty then updated.filter (fun l => decide (l.price ≠ o.price)) else updated,
     removed)

/-- `OrderBook._remove_from_book`. -/
def OrderBook.removeFromBook (b : OrderBook) (o : Order) : OrderBook × Bool :=
  if o.side = OrderSide.BUY then
    let r := removeOrderFromLevels o b.bidLevels
    ({ b with bidLevels := r.1 }, r.2)
  else
    let r := removeOrderFromLevels o b.askLevels
    ({ b with askLevels := r.1 }, r.2)

/-- `OrderBook.cancel_order`: look the order up in the id index, remove it
from the book, and only then transition it to CANCELLED (again the id index
aliases the mutated object). -/
def OrderBook.cancelOrder (b : OrderBook) (orderId : String) : Except String (OrderBook × Bool) :=
  match alookup orderId b.orders with
  | none => .ok (b, false)
  | some order =>
    let r := b.removeFromBook order
    if r.2 then
      match order.cancel with
      | .error e => .error e
      | .ok order' => .ok ({ r.1 with orders := ainsert orderId order' r.1.orders }, true)
    else .ok (r.1, false)

/-! ### The matching engine (`matching_engine.py`) -/

/-- Result discriminant of engine calls: the source returns dicts with
`status: success` carrying an order snapshot and trades, or `status: error`
with a message. -/
inductive EngineResult
  | success (order : Order) (trades : List Trade)
  | error (msg : String)
deriving DecidableEq

/-- An order submission request (`order_request` dict).  Quantities and
prices arrive as numbers here; the repo's own tests pass decimal strings,
on which the source's `quantity <= 0` comparison raises `TypeError` and the
submission is reported as an error, so restricting the model to numeric
payloads loses no successful path. -/
structure OrderRequest where
  symbol : Option String
  orderType : Option String
  side : Option String
  quantity : Option Qty
  price : Option Price
  orderId : Option String

/-- The engine state (`MatchingEngine.__init__`); callbacks and logging are
external effects and are not part of the state we reason about. -/
structure MatchingEngine where
  orderBooks : List (String × OrderBook)
  trades : List Trade
  tradeHistory : List (String × List Trade)
  allOrders : OrderMap
  totalOrdersProcessed : Nat
  totalTradesExecuted : Nat
deriving DecidableEq

/-- A fresh engine. -/
def MatchingEngine.init : MatchingEngine :=
  { orderBooks := [], trades := [], tradeHistory := [], allOrders := []
    totalOrdersProcessed := 0, totalTradesExecuted := 0 }

/-- Python `str.lower()` on the ASCII request fields, as a per-character
case map (`String.toLower` itself is defined by position recursion that
normal-form evaluation cannot unfold). -/
def strLower (s : String) : String := ⟨s.data.map Char.toLower⟩

/-- Python `str.upper()`; see `strLower`. -/
def strUpper (s : String) : String := ⟨s.data.map Char.toUpper⟩

/-- Parse an already-vetted lowercase order-type string. -/
def parseOrderTypeString (s : String) : OrderType :=
  if s = "market" then .MARKET
  else if s = "limit" then .LIMIT
  else if s = "ioc" then .IOC
  else .FOK

/-- `MatchingEngine._create_order_from_request`: field validation and
normalization, then `Order` construction.  `generatedId` stands for the
uuid the `Order` constructor would draw.  Error messages are abbreviated. -/
def MatchingEngine.createOrderFromRequest (req : OrderRequest) (generatedId : String) :
    Except String Order :=
  let orderTypeStr := strLower (req.orderType.getD "")
  let sideStr := strLower (req.side.getD "")
  match req.symbol with
  | none => .error "Symbol is required"
  | some rawSymbol =>
    if rawSymbol = "" then .error "Symbol is required"
    else
      let symbol := strUpper rawSymbol
      if ¬ (orderTypeStr = "market" ∨ orderTypeStr = "limit" ∨ orderTypeStr = "ioc" ∨ orderTypeStr = "fok") then
        .error "Invalid order type"
      else if ¬ (sideStr = "buy" ∨ sideStr = "sell") then
        .error "Invalid side"
      else
        match req.quantity with
        | none => .error "Quantity must be positive"
        | some q =>
          -- `if not quantity or quantity <= 0` (0 is falsy), then the
          -- Decimal round-trip rechecks `<= 0`
          if q ≤ 0 then .error "Quantity must be positive"
          else
            let orderType := parseOrderTypeString orderTypeStr
            let side := if sideStr = "buy" then OrderSide.BUY else OrderSide.SELL
            match orderType with
            | .MARKET =>
              -- market orders don't need price: decimal_price stays None
              Order.create symbol orderType side q none req.orderId generatedId
            | _ =>
              match req.price with
              | none => .error "Price is required"
              | some p =>
                if p ≤ 0 then .error "Invalid price format"
                else Order.create symbol orderType side q (some p) req.orderId generatedId

/-- `trade_history[symbol]` with the `defaultdict(list)` default. -/
def historyFor (e : MatchingEngine) (symbol : String) : List Trade :=
  (alookup symbol e.tradeHistory).getD []

/-- `MatchingEngine.submit_order`.  Mirrors the source's order of effects:
construct and validate the order (any exception is caught and reported as
an error result), fetch or create the book, store the order in `all_orders`
before matching, run `add_order`, then update the metrics counters and
append the trades to the global list and the symbol's history.  The
notification callbacks swallow their own exceptions and do not touch engine
state.  In the source `all_orders` aliases the live order object and
`order_books[symbol]` the live book, so their final states are written
back here. -/
def MatchingEngine.submitOrder (e : MatchingEngine) (req : OrderRequest) (generatedId : String) :
    MatchingEngine × EngineResult :=
  match MatchingEngine.createOrderFromRequest req generatedId with
  | .error msg => (e, .error msg)
  | .ok order =>
    if order.remainingQuantity ≤ 0 then (e, .error "Order quantity must be positive")
    else
      let book := (alookup order.symbol e.orderBooks).getD (OrderBook.empty order.symbol)
      let e1 := { e with orderBooks := ainsert order.symbol book e.orderBooks
                         allOrders := ainsert order.orderId order e.allOrders }
      match book.addOrder order with
      | .error msg => (e1, .error msg)
      | .ok (book', tradesDone) =>
        let finalOrder := (alookup order.orderId book'.orders).getD order
        ({ e1 with
            orderBooks := ainsert order.symbol book' e1.orderBooks
            allOrders := ainsert order.orderId finalOrder e1.allOrders
            totalOrdersProcessed := e1.totalOrdersProcessed + 1
            totalTradesExecuted := e1.totalTradesExecuted + tradesDone.length
            trades := e1.trades ++ tradesDone
            tradeHistory := ainsert order.symbol (historyFor e1 order.symbol ++ tradesDone)
              e1.tradeHistory },
         .success finalOrder tradesDone)

/-- `MatchingEngine.cancel_order`: unknown id and terminal statuses are
rejected before anything is touched; otherwise the owning book's
`cancel_order` runs and its (possibly mutated) state is written back. -/
def MatchingEngine.cancelOrder (e : MatchingEngine) (orderId : String) :
    MatchingEngine × EngineResult :=
  match alookup orderId e.allOrders with
  | none => (e, .error "Order not found")
  | some order =>
    if order.status = OrderStatus.FILLED ∨ order.status = OrderStatus.CANCELLED then
      (e, .error "Order cannot be cancelled")
    else
      match alookup order.symbol e.orderBooks with
      | none => (e, .error "Failed to cancel order")
      | some book =>
        match book.cancelOrder orderId with
        | .error msg => (e, .error msg)
        | .ok (book', cancelled) =>
          let e1 := { e with orderBooks := ainsert order.symbol book' e.orderBooks }
          if cancelled then
            let order' := (alookup orderId book'.orders).getD order
            ({ e1 with allOrders := ainsert orderId order' e1.allOrders },
             .success order' [])
          else
            (e1, .error "Failed to cancel order")

-- Equality of `Except` results is decidable componentwise.
deriving instance DecidableEq for Except

/- The batteries library marks the rational-arithmetic definitions
`@[irreducible]` for proof hygiene; concrete scenario runs are evaluated by
`decide`, whose kernel check is independent of reducibility, so they are
restored to normal reducibility here. -/
set_option allowUnsafeReducibility true

attribute [local semireducible] Rat.add Rat.sub Rat.mul Rat.inv Rat.ofScientific

/-! ### Concrete scenario runs

Input orders are given as the literal structures that `Order.create`
produces; each scenario theorem records the corresponding `Order.create`
equation, so the runs only involve constructor-built orders. -/

/-- Sum of `remaining_quantity` over the orders of a level (the quantity
the spec's PriceLevel invariant compares `total_quantity` against). -/
def levelRemainingSum (m : OrderMap) (lv : PriceLevel) : Qty :=
  (lv.orderIds.map (fun id => ((alookup id m).map Order.remainingQuantity).getD 0)).sum

/-- BUY LIMIT 1.0 @ 50000, id O1. -/
def orderO1 : Order :=
  ⟨"BTC-USDT", "O1", .LIMIT, .BUY, 1, 50000, 0, 1, .PENDING, []⟩

/-- BUY LIMIT 1.0 @ 50000, id O2. -/
def orderO2 : Order :=
  ⟨"BTC-USDT", "O2", .LIMIT, .BUY, 1, 50000, 0, 1, .PENDING, []⟩

/-- SELL LIMIT 1.0 @ 49999, id O3. -/
def orderO3 : Order :=
  ⟨"BTC-USDT", "O3", .LIMIT, .SELL, 1, 49999, 0, 1, .PENDING, []⟩

/-- The price-time-priority scenario: O1, then O2, then the crossing O3. -/
def runPriceTime : Except String (OrderBook × List Trade) :=
  match (OrderBook.empty "BTC-USDT").addOrder orderO1 with
  | .error e => .error e
  | .ok (b, _) =>
    match b.addOrder orderO2 with
    | .error e => .error e
    | .ok (b, _) => b.addOrder orderO3

/-- Final book of the price-time-priority scenario, as computed by the
embedded code.  Note `totalQuantity = 2` on a level whose only order has
`remainingQuantity = 1`: `pop_first_order` subtracts the popped maker's
current remaining quantity, which the preceding fill already set to 0. -/
def bookPriceTime : OrderBook :=
  { symbol := "BTC-USDT"
    bidLevels := [⟨50000, ["O2"], 2⟩]
    askLevels := []
    orders :=
      [("O1", ⟨"BTC-USDT", "O1", .LIMIT, .BUY, 1, 50000, 1, 0, .FILLED, [⟨"O1", 1, 50000⟩]⟩),
       ("O2", orderO2),
       ("O3", ⟨"BTC-USDT", "O3", .LIMIT, .SELL, 1, 49999, 1, 0, .FILLED, [⟨"O3", 1, 50000⟩]⟩)] }

/-- C8: matching respects price-time priority: after BUY LIMIT 1.0 @ 50000
(O1), BUY LIMIT 1.0 @ 50000 (O2), SELL LIMIT 1.0 @ 49999 (O3), exactly one
trade of 1.0 @ 50000 occurs with maker O1 and taker O3, O1 is FILLED, O2
stays PENDING with remaining 1.0, and the best bid is 50000. -/
theorem c8_price_time_priority :
    Order.create "BTC-USDT" .LIMIT .BUY 1 (some 50000) (some "O1") "g" = .ok orderO1 ∧
    Order.create "BTC-USDT" .LIMIT .BUY 1 (some 50000) (some "O2") "g" = .ok orderO2 ∧
    Order.create "BTC-USDT" .LIMIT .SELL 1 (some 49999) (some "O3") "g" = .ok orderO3 ∧
    runPriceTime =
      .ok (bookPriceTime,
        [{ symbol := "BTC-USDT", price := 50000, quantity := 1,
           makerOrderId := "O1", takerOrderId := "O3", aggressorSide := .SELL }]) ∧
    (alookup "O1" bookPriceTime.orders).map Order.status = some .FILLED ∧
    (alookup "O2" bookPriceTime.orders).map Order.status = some .PENDING ∧
    (alookup "O2" bookPriceTime.orders).map Order.remainingQuantity = some 1 ∧
    bookPriceTime.getBestBid = some 50000 := by
  decide

/-- C3: the PriceLevel aggregate-quantity invariant FAILS.  In the
price-time-priority run the maker O1 at the head of the 50000 level (which
also contains O2) is fully filled and popped, but `pop_first_order`
subtracts the popped order's current remaining quantity — already 0 after
the fill — so the level is left with `total_quantity = 2` while the sum of
remaining quantities of its orders is 1. -/
theorem c3_total_quantity_invariant_fails :
    runPriceTime =
      .ok (bookPriceTime,
        [{ symbol := "BTC-USDT", price := 50000, quantity := 1,
           makerOrderId := "O1", takerOrderId := "O3", aggressorSide := .SELL }]) ∧
    bookPriceTime.bidLevels = [⟨50000, ["O2"], 2⟩] ∧
    levelRemainingSum bookPriceTime.orders ⟨50000, ["O2"], 2⟩ = 1 ∧
    (2 : Qty) ≠ 1 := by
  decide

/-- C1: constructing a MARKET order with no price FAILS.  `Order.__init__`
unconditionally executes `self.price = Decimal(str(price))`, and
`Decimal(str(None))` raises `decimal.InvalidOperation`, so no MARKET order
(which per the spec carries no price) is ever constructed; the engine's
`submit_order` catches the exception and reports an error. -/
theorem c1_market_order_construction_fails :
    Order.create "BTC-USDT" .MARKET .BUY 1 none (some "M1") "g" =
      .error "decimal.InvalidOperation" ∧
    MatchingEngine.submitOrder MatchingEngine.init
      { symbol := some "BTC-USDT", orderType := some "market", side := some "buy",
        quantity := some 1, price := none, orderId := some "M1" } "g" =
      (MatchingEngine.init, .error "decimal.InvalidOperation") := by
  decide

/-- SELL LIMIT 0.5 @ 50100, id S1 (the resting liquidity of the FOK test). -/
def orderS1 : Order :=
  ⟨"BTC-USDT", "S1", .LIMIT, .SELL, 1/2, 50100, 0, 1/2, .PENDING, []⟩

/-- BUY FOK 1.0 @ 50200, id F1. -/
def orderF1 : Order :=
  ⟨"BTC-USDT", "F1", .FOK, .BUY, 1, 50200, 0, 1, .PENDING, []⟩

/-- The FOK scenario of the spec: resting SELL LIMIT 0.5 @ 50100, then
submit BUY FOK 1.0 @ 50200. -/
def runFok : Except String (OrderBook × List Trade) :=
  match (OrderBook.empty "BTC-USDT").addOrder orderS1 with
  | .error e => .error e
  | .ok (b, _) => b.addOrder orderF1

/-- C2: FOK is NOT all-or-nothing in the code.  There is no pre-scan of the
opposite side: the unfillable BUY FOK 1.0 @ 50200 executes a partial fill
of 0.5 against the resting SELL 0.5 @ 50100 (one trade is returned, the
resting sell is fully consumed and its level removed), and only then is the
FOK order cancelled, with `filled_quantity = 0.5` retained. -/
theorem c2_fok_not_all_or_nothing :
    Order.create "BTC-USDT" .LIMIT .SELL (1/2) (some 50100) (some "S1") "g" = .ok orderS1 ∧
    Order.create "BTC-USDT" .FOK .BUY 1 (some 50200) (some "F1") "g" = .ok orderF1 ∧
    runFok =
      .ok ({ symbol := "BTC-USDT"
             bidLevels := []
             askLevels := []
             orders :=
               [("S1", ⟨"BTC-USDT", "S1", .LIMIT, .SELL, 1/2, 50100, 1/2, 0, .FILLED,
                        [⟨"S1", 1/2, 50100⟩]⟩),
                ("F1", ⟨"BTC-USDT", "F1", .FOK, .BUY, 1, 50200, 1/2, 1/2, .CANCELLED,
                        [⟨"F1", 1/2, 50100⟩]⟩)] },
           [{ symbol := "BTC-USDT", price := 50100, quantity := 1/2,
              makerOrderId := "S1", takerOrderId := "F1", aggressorSide := .BUY }]) := by
  decide

/-- BUY IOC 1.0 @ 49000, id I1. -/
def orderI1 : Order :=
  ⟨"BTC-USDT", "I1", .IOC, .BUY, 1, 49000, 0, 1, .PENDING, []⟩

/-- The IOC scenario of the spec: submit BUY IOC 1.0 @ 49000 into an empty
book (no asks). -/
def runIoc : Except String (OrderBook × List Trade) :=
  (OrderBook.empty "BTC-USDT").addOrder orderI1

/-- C4: an IOC order that is not marketable is NOT cancelled.  With no asks
present, `_is_marketable` is false, `_match_order` — the only place the IOC
residual cancellation lives — never runs, and `add_order` leaves the order
with status PENDING (and permanently registered in the id index), producing
no trades.  The repo's own `test_ioc_order` expects `cancelled` here. -/
theorem c4_ioc_residual_not_cancelled :
    Order.create "BTC-USDT" .IOC .BUY 1 (some 49000) (some "I1") "g" = .ok orderI1 ∧
    runIoc =
      .ok ({ symbol := "BTC-USDT", bidLevels := [], askLevels := [],
             orders := [("I1", orderI1)] }, []) ∧
    (alookup "I1" ((OrderBook.empty "BTC-USDT")).orders) = none ∧
    orderI1.status = .PENDING ∧ OrderStatus.PENDING ≠ OrderStatus.CANCELLED := by
  decide

/-- SELL LIMIT 1.0 @ 50000, id M (a maker that will be fully filled). -/
def orderM : Order :=
  ⟨"BTC-USDT", "M", .LIMIT, .SELL, 1, 50000, 0, 1, .PENDING, []⟩

/-- BUY LIMIT 1.0 @ 50000, id T (the taker that consumes M). -/
def orderT : Order :=
  ⟨"BTC-USDT", "T", .LIMIT, .BUY, 1, 50000, 0, 1, .PENDING, []⟩

/-- Maker-fully-filled scenario: rest SELL 1.0 @ 50000, then cross it. -/
def runMakerFilled : Except String (OrderBook × List Trade) :=
  match (OrderBook.empty "BTC-USDT").addOrder orderM with
  | .error e => .error e
  | .ok (b, _) => b.addOrder orderT

/-- C5 counterexample: a fully filled maker is NOT deleted from the id
index.  After the maker M is completely consumed (both sides FILLED, all
price levels gone), `M` — and the never-resting taker `T` — are still
present in `orders`; nothing in `orderbook.py` ever deletes id-map
entries. -/
theorem c5_counterexample_id_map_retains_dead_orders :
    runMakerFilled =
      .ok ({ symbol := "BTC-USDT"
             bidLevels := []
             askLevels := []
             orders :=
               [("M", ⟨"BTC-USDT", "M", .LIMIT, .SELL, 1, 50000, 1, 0, .FILLED,
                       [⟨"M", 1, 50000⟩]⟩),
                ("T", ⟨"BTC-USDT", "T", .LIMIT, .BUY, 1, 50000, 1, 0, .FILLED,
                       [⟨"T", 1, 50000⟩]⟩)] },
           [{ symbol := "BTC-USDT", price := 50000, quantity := 1,
              makerOrderId := "M", takerOrderId := "T", aggressorSide := .BUY }]) := by
  decide

/-- An order in status REJECTED (the fifth status of the enum; no code path
ever assigns it, but the cancellation guard must face it). -/
def rejectedOrder : Order :=
  ⟨"BTC-USDT", "R1", .LIMIT, .BUY, 1, 50000, 0, 1, .REJECTED, []⟩

/-- C9 counterexample: `Order.cancel` only rejects FILLED and CANCELLED, so
cancelling from the REJECTED status SUCCEEDS — the claim's "and from no
other status" fails. -/
theorem c9_counterexample_cancel_from_rejected_succeeds :
    rejectedOrder.status = .REJECTED ∧
    rejectedOrder.status ≠ .PENDING ∧
    rejectedOrder.status ≠ .PARTIALLY_FILLED ∧
    Order.cancel rejectedOrder = .ok { rejectedOrder with status := .CANCELLED } := by
  decide

/-! ### Association-list lemmas -/

theorem akeys_cons {α : Type} (kv : String × α) (rest : List (String × α)) :
    akeys (kv :: rest) = kv.1 :: akeys rest := rfl

theorem not_mem_cons_parts {α : Type} {a b : α} {l : List α} (h : a ∉ b :: l) :
    a ≠ b ∧ a ∉ l :=
  ⟨fun e => h (e ▸ List.mem_cons_self b l), fun hm => h (List.mem_cons_of_mem b hm)⟩

theorem alookup_ainsert_self {α : Type} (m : List (String × α)) (k : String) (v : α) :
    alookup k (ainsert k v m) = some v := by
  induction m with
  | nil => simp [ainsert, alookup]
  | cons kv rest ih =>
    by_cases h : kv.1 = k
    · simp [ainsert, alookup, h]
    · simp [ainsert, alookup, h, ih]

theorem alookup_ainsert_ne {α : Type} (m : List (String × α)) {k k' : String} (v : α)
    (h : k ≠ k') : alookup k' (ainsert k v m) = alookup k' m := by
  induction m with
  | nil => simp [ainsert, alookup, fun e : k = k' => h e]
  | cons kv rest ih =>
    by_cases hk : kv.1 = k
    · subst hk
      simp only [ainsert, if_pos rfl, alookup, if_neg h]
    · simp only [ainsert, if_neg hk, alookup]
      by_cases hk' : kv.1 = k'
      · rw [if_pos hk', if_pos hk']
      · rw [if_neg hk', if_neg hk', ih]

theorem mem_akeys_of_alookup {α : Type} {m : List (String × α)} {k : String} {v : α}
    (h : alookup k m = some v) : k ∈ akeys m := by
  induction m with
  | nil => simp [alookup] at h
  | cons kv rest ih =>
    rw [alookup] at h
    by_cases hk : kv.1 = k
    · simp [akeys_cons, hk]
    · rw [if_neg hk] at h
      rw [akeys_cons]
      exact List.mem_cons_of_mem _ (ih h)

theorem alookup_eq_none_of_not_mem {α : Type} {m : List (String × α)} {k : String}
    (h : k ∉ akeys m) : alookup k m = none := by
  induction m with
  | nil => simp [alookup]
  | cons kv rest ih =>
    rw [akeys_cons] at h
    have hc := not_mem_cons_parts h
    rw [alookup, if_neg (fun e => hc.1 e.symm)]
    exact ih hc.2

theorem not_mem_akeys_of_alookup_none {α : Type} {m : List (String × α)} {k : String}
    (h : alookup k m = none) : k ∉ akeys m := by
  induction m with
  | nil => simp [akeys]
  | cons kv rest ih =>
    rw [alookup] at h
    by_cases hk : kv.1 = k
    · rw [if_pos hk] at h
      exact Option.noConfusion h
    · rw [if_neg hk] at h
      rw [akeys_cons]
      intro hm
      rcases List.mem_cons.mp hm with h1 | h2
      · exact hk h1.symm
      · exact ih h h2

theorem akeys_ainsert_of_mem {α : Type} {m : List (String × α)} {k : String} (v : α)
    (h : k ∈ akeys m) : akeys (ainsert k v m) = akeys m := by
  induction m with
  | nil => simp [akeys] at h
  | cons kv rest ih =>
    by_cases hk : kv.1 = k
    · show akeys (if kv.1 = k then (k, v) :: rest else kv :: ainsert k v rest) = _
      rw [if_pos hk, akeys_cons, akeys_cons, hk]
    · rw [akeys_cons] at h
      rcases List.mem_cons.mp h with h1 | h2
      · exact absurd h1.symm hk
      · show akeys (if kv.1 = k then (k, v) :: rest else kv :: ainsert k v rest) = _
        rw [if_neg hk, akeys_cons, akeys_cons, ih h2]

theorem akeys_ainsert_of_not_mem {α : Type} {m : List (String × α)} {k : String} (v : α)
    (h : k ∉ akeys m) : akeys (ainsert k v m) = akeys m ++ [k] := by
  induction m with
  | nil => simp [ainsert, akeys]
  | cons kv rest ih =>
    rw [akeys_cons] at h
    have hc := not_mem_cons_parts h
    show akeys (if kv.1 = k then (k, v) :: rest else kv :: ainsert k v rest) = _
    rw [if_neg (fun e => hc.1 e.symm), akeys_cons, ih hc.2, akeys_cons]
    rfl

/-! ### Small facts about `Order.fill` -/

/-- The state update a successful `Order.fill` performs. -/
def filledOrder (o : Order) (q : Qty) (p : Price) : Order :=
  { o with filledQuantity := o.filledQuantity + q
           remainingQuantity := o.remainingQuantity - q
           fills := o.fills ++ [{ orderId := o.orderId, quantity := q, price := p }]
           status := if o.remainingQuantity - q = 0 then .FILLED else .PARTIALLY_FILLED }

@[simp] theorem filledOrder_orderId (o : Order) (q : Qty) (p : Price) :
    (filledOrder o q p).orderId = o.orderId := rfl

@[simp] theorem filledOrder_symbol (o : Order) (q : Qty) (p : Price) :
    (filledOrder o q p).symbol = o.symbol := rfl

@[simp] theorem filledOrder_side (o : Order) (q : Qty) (p : Price) :
    (filledOrder o q p).side = o.side := rfl

@[simp] theorem filledOrder_orderType (o : Order) (q : Qty) (p : Price) :
    (filledOrder o q p).orderType = o.orderType := rfl

@[simp] theorem filledOrder_price (o : Order) (q : Qty) (p : Price) :
    (filledOrder o q p).price = o.price := rfl

@[simp] theorem filledOrder_quantity (o : Order) (q : Qty) (p : Price) :
    (filledOrder o q p).quantity = o.quantity := rfl

@[simp] theorem filledOrder_remainingQuantity (o : Order) (q : Qty) (p : Price) :
    (filledOrder o q p).remainingQuantity = o.remainingQuantity - q := rfl

theorem filledOrder_status (o : Order) (q : Qty) (p : Price) :
    (filledOrder o q p).status =
      if o.remainingQuantity - q = 0 then OrderStatus.FILLED else OrderStatus.PARTIALLY_FILLED := rfl

theorem Order.fill_eq_ok {o : Order} {q : Qty} (p : Price) (h1 : 0 < q)
    (h2 : q ≤ o.remainingQuantity) :
    o.fill q p = .ok (filledOrder o q p) := by
  rw [Order.fill, if_neg (not_le.mpr h1), if_neg (not_lt.mpr h2)]
  rfl

theorem Order.fill_ok_inv {o : Order} {q : Qty} {p : Price} {o' : Order}
    (h : o.fill q p = .ok o') :
    0 < q ∧ q ≤ o.remainingQuantity ∧ o' = filledOrder o q p := by
  rw [Order.fill] at h
  by_cases hq : q ≤ 0
  · rw [if_pos hq] at h
    exact Except.noConfusion h
  · rw [if_neg hq] at h
    by_cases hr : o.remainingQuantity < q
    · rw [if_pos hr] at h
      exact Except.noConfusion h
    · rw [if_neg hr] at h
      injection h with h2
      exact ⟨not_le.mp hq, not_lt.mp hr, h2.symm⟩

/-! ### The resting-order predicate and matching-loop specifications -/

/-- A well-placed resting order: the id maps to a live LIMIT order of the
expected symbol, side and price. -/
def GoodResting (m : OrderMap) (symbol : String) (side : OrderSide) (price : Price)
    (id : String) : Prop :=
  ∃ o, alookup id m = some o ∧ o.orderId = id ∧ o.symbol = symbol ∧ o.side = side ∧
    o.orderType = OrderType.LIMIT ∧ o.price = price ∧ 0 < o.remainingQuantity ∧
    (o.status = OrderStatus.PENDING ∨ o.status = OrderStatus.PARTIALLY_FILLED)

instance (m : OrderMap) (symbol : String) (side : OrderSide) (price : Price) (id : String) :
    Decidable (GoodResting m symbol side price id) :=
  match h : alookup id m with
  | none => .isFalse (by
      rintro ⟨o, ho, -⟩
      rw [h] at ho
      exact Option.noConfusion ho)
  | some o =>
    if hp : o.orderId = id ∧ o.symbol = symbol ∧ o.side = side ∧
        o.orderType = OrderType.LIMIT ∧ o.price = price ∧ 0 < o.remainingQuantity ∧
        (o.status = OrderStatus.PENDING ∨ o.status = OrderStatus.PARTIALLY_FILLED) then
      .isTrue ⟨o, h, hp.1, hp.2.1, hp.2.2.1, hp.2.2.2.1, hp.2.2.2.2.1, hp.2.2.2.2.2.1,
        hp.2.2.2.2.2.2⟩
    else
      .isFalse (by
        rintro ⟨o', ho', h1, h2, h3, h4, h5, h6, h7⟩
        rw [h] at ho'
        cases ho'
        exact hp ⟨h1, h2, h3, h4, h5, h6, h7⟩)

/-- Sum of the quantities of a list of trades. -/
def tradeQtySum (ts : List Trade) : Qty := (ts.map Trade.quantity).sum

/-- Sum of the quantities of the first `i` trades. -/
def tradeQtySumTake (ts : List Trade) (i : Nat) : Qty := tradeQtySum (ts.take i)

theorem ainsert_keyed {m : OrderMap} {k : String} {v : Order}
    (h : ∀ kv ∈ m, kv.2.orderId = kv.1) (hv : v.orderId = k) :
    ∀ kv ∈ ainsert k v m, kv.2.orderId = kv.1 := by
  induction m with
  | nil =>
    intro kv hkv
    rcases List.mem_singleton.mp hkv with rfl
    exact hv
  | cons kv0 rest ih =>
    intro kv hkv
    by_cases hk : kv0.1 = k
    · rw [ainsert, if_pos hk] at hkv
      rcases List.mem_cons.mp hkv with rfl | hm
      · exact hv
      · exact h kv (List.mem_cons_of_mem _ hm)
    · rw [ainsert, if_neg hk] at hkv
      rcases List.mem_cons.mp hkv with rfl | hm
      · exact h kv (List.mem_cons_self _ _)
      · exact ih (fun kv2 h2 => h kv2 (List.mem_cons_of_mem _ h2)) kv hm

/-- What one run of the inner matching loop (`matchAtLevel`) guarantees,
relating its inputs to its outputs. -/
structure LevelMatchOut (symA sym : String) (side : OrderSide) (p : Price)
    (inc : Order) (m : OrderMap) (ids : List String)
    (inc' : Order) (m' : OrderMap) (ids' : List String) (ts : List Trade) : Prop where
  drop_shape : ∃ n, n ≤ ids.length ∧ ids' = ids.drop n
  id_eq : inc'.orderId = inc.orderId
  side_eq : inc'.side = inc.side
  type_eq : inc'.orderType = inc.orderType
  price_eq : inc'.price = inc.price
  symbol_eq : inc'.symbol = inc.symbol
  quantity_eq : inc'.quantity = inc.quantity
  rem_eq : inc'.remainingQuantity = inc.remainingQuantity - tradeQtySum ts
  rem_nonneg : ts ≠ [] → 0 ≤ inc'.remainingQuantity
  nil_frozen : ts = [] → inc' = inc ∧ m' = m
  status_after : ts ≠ [] →
    inc'.status =
      if inc'.remainingQuantity = 0 then OrderStatus.FILLED else OrderStatus.PARTIALLY_FILLED
  exit_exhausted : ids' ≠ [] → inc'.remainingQuantity ≤ 0
  count_of_empty : ids' = [] → ts.length = ids.length
  keyed : (∀ kv ∈ m, kv.2.orderId = kv.1) → ∀ kv ∈ m', kv.2.orderId = kv.1
  untouched : ∀ x, x ∉ ids → alookup x m' = alookup x m
  keys_eq : akeys m' = akeys m
  qty_pos : ∀ t ∈ ts, 0 < t.quantity
  survivors : ∀ id ∈ ids', GoodResting m' sym side p id
  aligned : ∀ i, ∀ hi : i < ts.length,
    ∃ (hj : i < ids.length) (maker : Order),
      alookup (ids.get ⟨i, hj⟩) m = some maker ∧
      ts.get ⟨i, hi⟩ =
        { symbol := symA, price := maker.price,
          quantity := min (inc.remainingQuantity - tradeQtySumTake ts i) maker.remainingQuantity,
          makerOrderId := maker.orderId, takerOrderId := inc.orderId,
          aggressorSide := inc.side }

theorem tradeQtySum_nil : tradeQtySum [] = 0 := rfl

theorem tradeQtySum_cons (t : Trade) (ts : List Trade) :
    tradeQtySum (t :: ts) = t.quantity + tradeQtySum ts := by
  simp [tradeQtySum]

theorem tradeQtySumTake_zero (ts : List Trade) : tradeQtySumTake ts 0 = 0 := rfl

theorem tradeQtySumTake_succ_cons (t : Trade) (ts : List Trade) (i : Nat) :
    tradeQtySumTake (t :: ts) (i + 1) = t.quantity + tradeQtySumTake ts i := by
  simp [tradeQtySumTake, tradeQtySum]

theorem LevelMatchOut.noop (symA sym : String) (side : OrderSide) (p : Price)
    (inc : Order) (m : OrderMap) (ids : List String)
    (hG : ∀ id ∈ ids, GoodResting m sym side p id)
    (hexit : ids ≠ [] → inc.remainingQuantity ≤ 0) :
    LevelMatchOut symA sym side p inc m ids inc m ids [] where
  drop_shape := ⟨0, Nat.zero_le _, rfl⟩
  id_eq := rfl
  side_eq := rfl
  type_eq := rfl
  price_eq := rfl
  symbol_eq := rfl
  quantity_eq := rfl
  rem_eq := by simp [tradeQtySum]
  rem_nonneg := fun h => absurd rfl h
  nil_frozen := fun _ => ⟨rfl, rfl⟩
  status_after := fun h => absurd rfl h
  exit_exhausted := hexit
  count_of_empty := fun h => by rw [h]; rfl
  keyed := fun h => h
  untouched := fun x _ => rfl
  keys_eq := rfl
  qty_pos := by simp
  survivors := hG
  aligned := fun i hi => absurd hi (by simp)

theorem matchAtLevel_spec (symA sym : String) (side : OrderSide) (p : Price) :
    ∀ (ids : List String) (inc : Order) (m : OrderMap) (tq : Qty),
      (∀ id ∈ ids, GoodResting m sym side p id) → ids.Nodup → inc.orderId ∉ ids →
      ∃ inc' m' ids' tq' ts,
        matchAtLevel symA inc m ids tq = .ok (inc', m', ids', tq', ts) ∧
        LevelMatchOut symA sym side p inc m ids inc' m' ids' ts := by
  intro ids
  induction ids with
  | nil =>
    intro inc m tq hG hN hF
    exact ⟨inc, m, [], tq, [], rfl,
      LevelMatchOut.noop _ _ _ _ _ _ _ hG (fun h => absurd rfl h)⟩
  | cons rid rest ih =>
    intro inc m tq hG hN hF
    by_cases hpos : 0 < inc.remainingQuantity
    · obtain ⟨o, hlook, hoid, hosym, hoside, hotype, hoprice, horem, hostatus⟩ :=
        hG rid (List.mem_cons_self _ _)
      have hnodup := List.nodup_cons.mp hN
      have hFrest : inc.orderId ∉ rest := fun hm => hF (List.mem_cons_of_mem _ hm)
      have hq0 : 0 < min inc.remainingQuantity o.remainingQuantity := lt_min hpos horem
      have hqo : min inc.remainingQuantity o.remainingQuantity ≤ o.remainingQuantity :=
        min_le_right _ _
      have hqi : min inc.remainingQuantity o.remainingQuantity ≤ inc.remainingQuantity :=
        min_le_left _ _
      have hfo := Order.fill_eq_ok (o := o) o.price hq0 hqo
      have hfi := Order.fill_eq_ok (o := inc) o.price hq0 hqi
      by_cases hdone :
          o.remainingQuantity - min inc.remainingQuantity o.remainingQuantity = 0
      · -- the maker is fully filled: popped, loop continues on the tail
        have hGrest : ∀ id ∈ rest,
            GoodResting
              (ainsert rid (filledOrder o (min inc.remainingQuantity o.remainingQuantity) o.price) m)
              sym side p id := by
          intro id hid
          obtain ⟨o2, hl2, h2a, h2b, h2c, h2d, h2e, h2f, h2g⟩ :=
            hG id (List.mem_cons_of_mem _ hid)
          have hne : rid ≠ id := fun e => hnodup.1 (by rw [e]; exact hid)
          refine ⟨o2, ?_, h2a, h2b, h2c, h2d, h2e, h2f, h2g⟩
          rw [alookup_ainsert_ne _ _ hne]
          exact hl2
        obtain ⟨inc', m'', ids', tq'', ts₁, hrec, out⟩ :=
          ih (filledOrder inc (min inc.remainingQuantity o.remainingQuantity) o.price)
            (ainsert rid (filledOrder o (min inc.remainingQuantity o.remainingQuantity) o.price) m)
            (tq - (o.remainingQuantity - min inc.remainingQuantity o.remainingQuantity))
            hGrest hnodup.2 (by simpa using hFrest)
        refine ⟨inc', m'', ids', tq'',
          { symbol := symA, price := o.price,
            quantity := min inc.remainingQuantity o.remainingQuantity,
            makerOrderId := rid, takerOrderId := inc.orderId,
            aggressorSide := inc.side } :: ts₁, ?_, ?_⟩
        · simp only [matchAtLevel, if_pos hpos, hlook]
          rw [hfo, hfi]
          dsimp only
          rw [filledOrder_remainingQuantity, if_pos hdone, hrec]
        · refine
            { drop_shape := ?_, id_eq := ?_, side_eq := ?_, type_eq := ?_, price_eq := ?_
              symbol_eq := ?_, quantity_eq := ?_, rem_eq := ?_, rem_nonneg := ?_
              nil_frozen := ?_, status_after := ?_, exit_exhausted := ?_
              count_of_empty := ?_, keyed := ?_, untouched := ?_
              keys_eq := ?_, qty_pos := ?_, survivors := ?_, aligned := ?_ }
          · obtain ⟨n, hn, hids⟩ := out.drop_shape
            exact ⟨n + 1, Nat.succ_le_succ hn, by simpa using hids⟩
          · exact out.id_eq
          · exact out.side_eq
          · exact out.type_eq
          · exact out.price_eq
          · exact out.symbol_eq
          · exact out.quantity_eq
          · rw [tradeQtySum_cons]
            have := out.rem_eq
            rw [filledOrder_remainingQuantity] at this
            rw [this]
            ring
          · intro _
            by_cases hts : ts₁ = []
            · obtain ⟨hinc, -⟩ := out.nil_frozen hts
              rw [hinc, filledOrder_remainingQuantity]
              exact sub_nonneg.mpr hqi
            · exact out.rem_nonneg hts
          · intro hemp
            exact List.noConfusion hemp
          · intro _
            by_cases hts : ts₁ = []
            · obtain ⟨hinc, -⟩ := out.nil_frozen hts
              rw [hinc]
              rfl
            · exact out.status_after hts
          · exact out.exit_exhausted
          · intro hids
            have := out.count_of_empty hids
            simp [this]
          · intro hkeyed
            exact out.keyed (ainsert_keyed hkeyed (by simpa using hoid))
          · intro x hx
            have hx1 : x ≠ rid := fun e => hx (e ▸ List.mem_cons_self _ _)
            have hx2 : x ∉ rest := fun hm => hx (List.mem_cons_of_mem _ hm)
            rw [out.untouched x hx2, alookup_ainsert_ne _ _ (Ne.symm hx1)]
          · exact out.keys_eq.trans (akeys_ainsert_of_mem _ (mem_akeys_of_alookup hlook))
          · intro t ht
            rcases List.mem_cons.mp ht with h1 | h2
            · rw [h1]
              exact hq0
            · exact out.qty_pos t h2
          · exact out.survivors
          · intro i hi
            match i with
            | 0 =>
              refine ⟨Nat.succ_pos _, o, hlook, ?_⟩
              rw [List.get]
              simp [tradeQtySumTake_zero, hoid]
            | Nat.succ j =>
              have hj1 : j < ts₁.length := by simpa using hi
              obtain ⟨hj, maker, hlmk, htr⟩ := out.aligned j hj1
              have hmemj : rest.get ⟨j, hj⟩ ∈ rest := List.get_mem _ _ _
              have hnej : rid ≠ rest.get ⟨j, hj⟩ := fun e => hnodup.1 (e ▸ hmemj)
              refine ⟨Nat.succ_lt_succ hj, maker, ?_, ?_⟩
              · show alookup (rest.get ⟨j, hj⟩) m = some maker
                rw [← alookup_ainsert_ne m
                  (filledOrder o (min inc.remainingQuantity o.remainingQuantity) o.price) hnej]
                exact hlmk
              · rw [List.get]
                rw [htr]
                simp only [filledOrder_orderId, filledOrder_side,
                  filledOrder_remainingQuantity, tradeQtySumTake_succ_cons]
                rw [sub_sub]
      · -- the maker is only partially filled: the incoming order is exhausted
        have hrem' : 0 <
            o.remainingQuantity - min inc.remainingQuantity o.remainingQuantity :=
          lt_of_le_of_ne (sub_nonneg.mpr hqo) (Ne.symm hdone)
        have hincdone :
            inc.remainingQuantity - min inc.remainingQuantity o.remainingQuantity = 0 := by
          rcases le_total inc.remainingQuantity o.remainingQuantity with hle | hle
          · rw [min_eq_left hle, sub_self]
          · exact absurd (by rw [min_eq_right hle, sub_self]) hdone
        refine ⟨filledOrder inc (min inc.remainingQuantity o.remainingQuantity) o.price,
          ainsert rid (filledOrder o (min inc.remainingQuantity o.remainingQuantity) o.price) m,
          rid :: rest, tq - min inc.remainingQuantity o.remainingQuantity,
          [{ symbol := symA, price := o.price,
             quantity := min inc.remainingQuantity o.remainingQuantity,
             makerOrderId := rid, takerOrderId := inc.orderId,
             aggressorSide := inc.side }], ?_, ?_⟩
        · simp only [matchAtLevel, if_pos hpos, hlook]
          rw [hfo, hfi]
          dsimp only
          rw [filledOrder_remainingQuantity, if_neg hdone]
        · refine
            { drop_shape := ⟨0, Nat.zero_le _, rfl⟩, id_eq := rfl, side_eq := rfl
              type_eq := rfl, price_eq := rfl, symbol_eq := rfl, quantity_eq := rfl
              rem_eq := ?_, rem_nonneg := ?_, nil_frozen := ?_, status_after := ?_
              exit_exhausted := ?_, count_of_empty := ?_, keyed := ?_, untouched := ?_
              keys_eq := ?_, qty_pos := ?_, survivors := ?_, aligned := ?_ }
          · rw [filledOrder_remainingQuantity, tradeQtySum_cons, tradeQtySum_nil]
            ring
          · intro _
            rw [filledOrder_remainingQuantity]
            exact sub_nonneg.mpr hqi
          · intro h
            exact List.noConfusion h
          · intro _
            rfl
          · intro _
            rw [filledOrder_remainingQuantity, hincdone]
          · intro h
            exact List.noConfusion h
          · intro hkeyed
            exact ainsert_keyed hkeyed (by simpa using hoid)
          · intro x hx
            have hxr : rid ≠ x := fun e => hx (by rw [← e]; exact List.mem_cons_self _ _)
            exact alookup_ainsert_ne _ _ hxr
          · exact akeys_ainsert_of_mem _ (mem_akeys_of_alookup hlook)
          · intro t ht
            rcases List.mem_cons.mp ht with h1 | h2
            · rw [h1]
              exact hq0
            · exact absurd h2 (List.not_mem_nil t)
          · intro id hid
            rcases List.mem_cons.mp hid with h1 | h2
            · subst h1
              refine ⟨filledOrder o (min inc.remainingQuantity o.remainingQuantity) o.price,
                alookup_ainsert_self _ _ _, by simpa using hoid, by simpa using hosym,
                by simpa using hoside, by simpa using hotype, by simpa using hoprice,
                by simpa using hrem', Or.inr ?_⟩
              rw [filledOrder_status, if_neg hdone]
            · obtain ⟨o2, hl2, h2a, h2b, h2c, h2d, h2e, h2f, h2g⟩ :=
                hG id (List.mem_cons_of_mem _ h2)
              have hne : rid ≠ id := fun e => hnodup.1 (by rw [e]; exact h2)
              refine ⟨o2, ?_, h2a, h2b, h2c, h2d, h2e, h2f, h2g⟩
              rw [alookup_ainsert_ne _ _ hne]
              exact hl2
          · intro i hi
            match i with
            | 0 =>
              refine ⟨Nat.succ_pos _, o, hlook, ?_⟩
              rw [List.get]
              simp [tradeQtySumTake_zero, hoid]
            | Nat.succ j =>
              simp at hi
    · refine ⟨inc, m, rid :: rest, tq, [], ?_, ?_⟩
      · simp only [matchAtLevel, if_neg hpos]
      · exact LevelMatchOut.noop _ _ _ _ _ _ _ hG (fun _ => not_lt.mp hpos)

/-! ### Side-level specifications -/

/-- All order ids resting on a list of levels, in price-then-FIFO order. -/
def levelsOrderIds (levels : List PriceLevel) : List String :=
  (levels.map PriceLevel.orderIds).flatten

/-- The prices of a list of levels. -/
def levelPrices (levels : List PriceLevel) : List Price :=
  levels.map PriceLevel.price

theorem levelsOrderIds_nil : levelsOrderIds [] = [] := rfl

theorem levelsOrderIds_cons (lv : PriceLevel) (rest : List PriceLevel) :
    levelsOrderIds (lv :: rest) = lv.orderIds ++ levelsOrderIds rest := by
  simp [levelsOrderIds]

theorem levelPrices_cons (lv : PriceLevel) (rest : List PriceLevel) :
    levelPrices (lv :: rest) = lv.price :: levelPrices rest := rfl

/-- Well-formedness of one side's level list relative to an id map. -/
def SideWf (m : OrderMap) (sym : String) (side : OrderSide) (levels : List PriceLevel) : Prop :=
  ∀ lv ∈ levels, lv.orderIds ≠ [] ∧ ∀ id ∈ lv.orderIds, GoodResting m sym side lv.price id

theorem tradeQtySum_append (ts1 ts2 : List Trade) :
    tradeQtySum (ts1 ++ ts2) = tradeQtySum ts1 + tradeQtySum ts2 := by
  simp [tradeQtySum]

theorem tradeQtySumTake_append_left (ts1 ts2 : List Trade) (i : Nat) (h : i ≤ ts1.length) :
    tradeQtySumTake (ts1 ++ ts2) i = tradeQtySumTake ts1 i := by
  rw [tradeQtySumTake, tradeQtySumTake, List.take_append_of_le_length h]

theorem tradeQtySumTake_append_right (ts1 ts2 : List Trade) (j : Nat) :
    tradeQtySumTake (ts1 ++ ts2) (ts1.length + j) = tradeQtySum ts1 + tradeQtySumTake ts2 j := by
  induction ts1 with
  | nil => simp [tradeQtySumTake, tradeQtySum]
  | cons t ts ih =>
    rw [List.cons_append, List.length_cons]
    have : ts.length + 1 + j = (ts.length + j) + 1 := by omega
    rw [this, tradeQtySumTake_succ_cons, tradeQtySum_cons, ih]
    ring

/-- What one run of the outer matching loop (`matchLevels`) guarantees. -/
structure LevelsMatchOut (symA sym : String) (side : OrderSide) (cmp : Price → Bool)
    (inc : Order) (m : OrderMap) (levels : List PriceLevel)
    (inc' : Order) (m' : OrderMap) (levels' : List PriceLevel) (ts : List Trade) : Prop where
  prices_suffix : ∃ n, n ≤ levels.length ∧ levelPrices levels' = (levelPrices levels).drop n
  ids_sublist : (levelsOrderIds levels').Sublist (levelsOrderIds levels)
  id_eq : inc'.orderId = inc.orderId
  side_eq : inc'.side = inc.side
  type_eq : inc'.orderType = inc.orderType
  price_eq : inc'.price = inc.price
  symbol_eq : inc'.symbol = inc.symbol
  quantity_eq : inc'.quantity = inc.quantity
  rem_eq : inc'.remainingQuantity = inc.remainingQuantity - tradeQtySum ts
  rem_nonneg : ts ≠ [] → 0 ≤ inc'.remainingQuantity
  nil_frozen : ts = [] → inc' = inc
  status_after : ts ≠ [] →
    inc'.status =
      if inc'.remainingQuantity = 0 then OrderStatus.FILLED else OrderStatus.PARTIALLY_FILLED
  stop_reason : 0 < inc'.remainingQuantity →
    levels' = [] ∨
      (inc.orderType ≠ OrderType.MARKET ∧
        ∃ lv rest2, levels' = lv :: rest2 ∧ cmp lv.price = false)
  keyed : (∀ kv ∈ m, kv.2.orderId = kv.1) → ∀ kv ∈ m', kv.2.orderId = kv.1
  untouched : ∀ x, x ∉ levelsOrderIds levels → alookup x m' = alookup x m
  keys_eq : akeys m' = akeys m
  qty_pos : ∀ t ∈ ts, 0 < t.quantity
  survivors : SideWf m' sym side levels'
  aligned : ∀ i, ∀ hi : i < ts.length,
    ∃ (hj : i < (levelsOrderIds levels).length) (maker : Order),
      alookup ((levelsOrderIds levels).get ⟨i, hj⟩) m = some maker ∧
      ts.get ⟨i, hi⟩ =
        { symbol := symA, price := maker.price,
          quantity := min (inc.remainingQuantity - tradeQtySumTake ts i) maker.remainingQuantity,
          makerOrderId := maker.orderId, takerOrderId := inc.orderId,
          aggressorSide := inc.side }

theorem get_append_add {α : Type} (l1 l2 : List α) (j : Nat) (hj : j < l2.length)
    (h : l1.length + j < (l1 ++ l2).length) :
    (l1 ++ l2).get ⟨l1.length + j, h⟩ = l2.get ⟨j, hj⟩ := by
  simp only [List.get_eq_getElem]
  rw [List.getElem_append_right (by omega)]
  congr 1
  omega

/-- A no-op outcome of the outer loop. -/
theorem LevelsMatchOut.noopAll (symA sym : String) (side : OrderSide) (cmp : Price → Bool)
    (inc : Order) (m : OrderMap) (levels : List PriceLevel)
    (hS : SideWf m sym side levels)
    (hstop : 0 < inc.remainingQuantity →
      levels = [] ∨
        (inc.orderType ≠ OrderType.MARKET ∧
          ∃ lv rest2, levels = lv :: rest2 ∧ cmp lv.price = false)) :
    LevelsMatchOut symA sym side cmp inc m levels inc m levels [] where
  prices_suffix := ⟨0, Nat.zero_le _, rfl⟩
  ids_sublist := List.Sublist.refl _
  id_eq := rfl
  side_eq := rfl
  type_eq := rfl
  price_eq := rfl
  symbol_eq := rfl
  quantity_eq := rfl
  rem_eq := by simp [tradeQtySum]
  rem_nonneg := fun h => absurd rfl h
  nil_frozen := fun _ => rfl
  status_after := fun h => absurd rfl h
  stop_reason := hstop
  keyed := fun h => h
  untouched := fun x _ => rfl
  keys_eq := rfl
  qty_pos := by simp
  survivors := hS
  aligned := fun i hi => absurd hi (by simp)

theorem matchLevels_spec (symA sym : String) (side : OrderSide) (cmp : Price → Bool) :
    ∀ (levels : List PriceLevel) (inc : Order) (m : OrderMap),
      SideWf m sym side levels → (levelsOrderIds levels).Nodup →
      inc.orderId ∉ levelsOrderIds levels →
      ∃ inc' m' levels' ts,
        matchLevels symA cmp inc m levels = .ok (inc', m', levels', ts) ∧
        LevelsMatchOut symA sym side cmp inc m levels inc' m' levels' ts := by
  intro levels
  induction levels with
  | nil =>
    intro inc m hS hN hF
    exact ⟨inc, m, [], [], rfl,
      LevelsMatchOut.noopAll _ _ _ _ _ _ _ hS (fun _ => Or.inl rfl)⟩
  | cons lv rest ih =>
    intro inc m hS hN hF
    rw [levelsOrderIds_cons] at hN hF
    have hNsplit := List.nodup_append.mp hN
    have hFhead : inc.orderId ∉ lv.orderIds := fun hm => hF (List.mem_append_left _ hm)
    have hFrest : inc.orderId ∉ levelsOrderIds rest := fun hm => hF (List.mem_append_right _ hm)
    have hShead := hS lv (List.mem_cons_self _ _)
    have hSrest : SideWf m sym side rest := fun lv2 h2 => hS lv2 (List.mem_cons_of_mem _ h2)
    by_cases hpos : 0 < inc.remainingQuantity
    · by_cases hstop : inc.orderType ≠ OrderType.MARKET ∧ cmp lv.price = false
      · refine ⟨inc, m, lv :: rest, [], ?_, ?_⟩
        · simp only [matchLevels, if_pos hpos, if_pos hstop]
        · exact LevelsMatchOut.noopAll _ _ _ _ _ _ _ hS
            (fun _ => Or.inr ⟨hstop.1, lv, rest, rfl, hstop.2⟩)
      · obtain ⟨inc1, m1, ids1, tq1, ts1, heq1, out1⟩ :=
          matchAtLevel_spec symA sym side lv.price lv.orderIds inc m lv.totalQuantity
            hShead.2 hNsplit.1 hFhead
        have hmemrest : ∀ lv2 ∈ rest, ∀ id ∈ lv2.orderIds, id ∈ levelsOrderIds rest := by
          intro lv2 h2 id hid
          rw [levelsOrderIds]
          exact List.mem_flatten.mpr ⟨lv2.orderIds, List.mem_map_of_mem _ h2, hid⟩
        have hSrest1 : SideWf m1 sym side rest := by
          intro lv2 h2
          refine ⟨(hSrest lv2 h2).1, ?_⟩
          intro id hid
          obtain ⟨o2, hl2, h2a, h2b, h2c, h2d, h2e, h2f, h2g⟩ := (hSrest lv2 h2).2 id hid
          have hnid : id ∉ lv.orderIds := fun hin =>
            hNsplit.2.2 hin (hmemrest lv2 h2 id hid)
          exact ⟨o2, (out1.untouched id hnid).trans hl2, h2a, h2b, h2c, h2d, h2e, h2f, h2g⟩
        by_cases hempty : ids1 = []
        · -- level consumed: prune it and continue
          subst hempty
          have htslen : ts1.length = lv.orderIds.length := out1.count_of_empty rfl
          obtain ⟨inc', m', rest', ts2, heq2, out2⟩ :=
            ih inc1 m1 hSrest1 hNsplit.2.1 (by rw [out1.id_eq]; exact hFrest)
          refine ⟨inc', m', rest', ts1 ++ ts2, ?_, ?_⟩
          · simp only [matchLevels, if_pos hpos, if_neg hstop]
            rw [heq1]
            dsimp only
            rw [if_pos (by rfl : ([] : List String).isEmpty = true), heq2]
          · refine
              { prices_suffix := ?_, ids_sublist := ?_, id_eq := ?_, side_eq := ?_
                type_eq := ?_, price_eq := ?_, symbol_eq := ?_, quantity_eq := ?_
                rem_eq := ?_, rem_nonneg := ?_, nil_frozen := ?_, status_after := ?_
                stop_reason := ?_, keyed := ?_, untouched := ?_, keys_eq := ?_, qty_pos := ?_
                survivors := ?_, aligned := ?_ }
            · obtain ⟨n, hn, hp⟩ := out2.prices_suffix
              exact ⟨n + 1, Nat.succ_le_succ hn, by rw [hp]; rfl⟩
            · rw [levelsOrderIds_cons]
              exact out2.ids_sublist.trans (List.sublist_append_right _ _)
            · exact out2.id_eq.trans out1.id_eq
            · exact out2.side_eq.trans out1.side_eq
            · exact out2.type_eq.trans out1.type_eq
            · exact out2.price_eq.trans out1.price_eq
            · exact out2.symbol_eq.trans out1.symbol_eq
            · exact out2.quantity_eq.trans out1.quantity_eq
            · rw [out2.rem_eq, out1.rem_eq, tradeQtySum_append]
              ring
            · intro hne
              by_cases hts2 : ts2 = []
              · rw [out2.nil_frozen hts2]
                have hts1 : ts1 ≠ [] := by
                  intro h1
                  exact hne (by rw [h1, hts2]; rfl)
                exact out1.rem_nonneg hts1
              · exact out2.rem_nonneg hts2
            · intro hnil
              have hboth := List.append_eq_nil.mp hnil
              rw [out2.nil_frozen hboth.2, (out1.nil_frozen hboth.1).1]
            · intro hne
              by_cases hts2 : ts2 = []
              · rw [out2.nil_frozen hts2]
                have hts1 : ts1 ≠ [] := by
                  intro h1
                  exact hne (by rw [h1, hts2]; rfl)
                exact out1.status_after hts1
              · exact out2.status_after hts2
            · intro hp
              rcases out2.stop_reason hp with h1 | h2
              · exact Or.inl h1
              · refine Or.inr ⟨?_, h2.2⟩
                rw [← out1.type_eq]
                exact h2.1
            · intro hkeyed
              exact out2.keyed (out1.keyed hkeyed)
            · intro x hx
              rw [levelsOrderIds_cons] at hx
              have hx1 : x ∉ lv.orderIds := fun hm => hx (List.mem_append_left _ hm)
              have hx2 : x ∉ levelsOrderIds rest := fun hm => hx (List.mem_append_right _ hm)
              rw [out2.untouched x hx2, out1.untouched x hx1]
            · exact out2.keys_eq.trans out1.keys_eq
            · intro t ht
              rcases List.mem_append.mp ht with h1 | h2
              · exact out1.qty_pos t h1
              · exact out2.qty_pos t h2
            · exact out2.survivors
            · intro i hi
              rw [List.length_append] at hi
              by_cases hi1 : i < ts1.length
              · obtain ⟨hj, maker, hlmk, htr⟩ := out1.aligned i hi1
                have hj' : i < (levelsOrderIds (lv :: rest)).length := by
                  rw [levelsOrderIds_cons, List.length_append]
                  omega
                refine ⟨hj', maker, ?_, ?_⟩
                · have hreduce : (levelsOrderIds (lv :: rest)).get ⟨i, hj'⟩ =
                      lv.orderIds.get ⟨i, hj⟩ := by
                    have : levelsOrderIds (lv :: rest) = lv.orderIds ++ levelsOrderIds rest :=
                      levelsOrderIds_cons _ _
                    rw [List.get_of_eq this, List.get_append i hj]
                  rw [hreduce]
                  exact hlmk
                · rw [List.get_append i hi1, htr,
                    tradeQtySumTake_append_left _ _ i (le_of_lt hi1)]
              · -- a trade of a later level
                obtain ⟨j, rfl⟩ : ∃ j, i = ts1.length + j :=
                  ⟨i - ts1.length, by omega⟩
                have hj2 : j < ts2.length := by omega
                obtain ⟨hj, maker, hlmk, htr⟩ := out2.aligned j hj2
                have hj' : ts1.length + j < (levelsOrderIds (lv :: rest)).length := by
                  rw [levelsOrderIds_cons, List.length_append, htslen]
                  omega
                have hmem : (levelsOrderIds rest).get ⟨j, hj⟩ ∈ levelsOrderIds rest :=
                  List.get_mem _ _ _
                have hnid : (levelsOrderIds rest).get ⟨j, hj⟩ ∉ lv.orderIds := fun hin =>
                  hNsplit.2.2 hin hmem
                refine ⟨hj', maker, ?_, ?_⟩
                · have hreduce : (levelsOrderIds (lv :: rest)).get ⟨ts1.length + j, hj'⟩ =
                      (levelsOrderIds rest).get ⟨j, hj⟩ := by
                    have hc : levelsOrderIds (lv :: rest) =
                        lv.orderIds ++ levelsOrderIds rest := levelsOrderIds_cons _ _
                    rw [List.get_of_eq hc]
                    simp only [List.get_eq_getElem]
                    rw [List.getElem_append_right (by omega)]
                    congr 1
                    omega
                  rw [hreduce, ← out1.untouched _ hnid]
                  exact hlmk
                · have htr2 : (ts1 ++ ts2).get ⟨ts1.length + j, by rw [List.length_append]; omega⟩ =
                      ts2.get ⟨j, hj2⟩ := get_append_add _ _ j hj2 _
                  rw [htr2, htr, tradeQtySumTake_append_right, out1.rem_eq,
                    out1.id_eq, out1.side_eq, sub_sub]
        · -- level not consumed: the incoming order is exhausted
          refine ⟨inc1, m1, ⟨lv.price, ids1, tq1⟩ :: rest, ts1, ?_, ?_⟩
          · simp only [matchLevels, if_pos hpos, if_neg hstop]
            rw [heq1]
            dsimp only
            rw [if_neg (by simpa using hempty)]
          · refine
              { prices_suffix := ⟨0, Nat.zero_le _, rfl⟩, ids_sublist := ?_, id_eq := out1.id_eq
                side_eq := out1.side_eq, type_eq := out1.type_eq, price_eq := out1.price_eq
                symbol_eq := out1.symbol_eq, quantity_eq := out1.quantity_eq
                rem_eq := out1.rem_eq, rem_nonneg := out1.rem_nonneg
                nil_frozen := fun h => (out1.nil_frozen h).1, status_after := out1.status_after
                stop_reason := ?_, keyed := out1.keyed, untouched := ?_, keys_eq := out1.keys_eq
                qty_pos := out1.qty_pos, survivors := ?_, aligned := ?_ }
            · rw [levelsOrderIds_cons, levelsOrderIds_cons]
              obtain ⟨n, hn, hids⟩ := out1.drop_shape
              exact (hids ▸ List.drop_sublist n lv.orderIds).append (List.Sublist.refl _)
            · intro hp
              exact absurd hp (not_lt.mpr (out1.exit_exhausted hempty))
            · intro x hx
              rw [levelsOrderIds_cons] at hx
              exact out1.untouched x (fun hm => hx (List.mem_append_left _ hm))
            · intro lv2 h2
              rcases List.mem_cons.mp h2 with h1 | h1
              · subst h1
                exact ⟨hempty, out1.survivors⟩
              · exact hSrest1 lv2 h1
            · intro i hi
              obtain ⟨hj, maker, hlmk, htr⟩ := out1.aligned i hi
              have hj' : i < (levelsOrderIds (lv :: rest)).length := by
                rw [levelsOrderIds_cons, List.length_append]
                omega
              refine ⟨hj', maker, ?_, ?_⟩
              · have hreduce : (levelsOrderIds (lv :: rest)).get ⟨i, hj'⟩ =
                    lv.orderIds.get ⟨i, hj⟩ := by
                  rw [List.get_of_eq (levelsOrderIds_cons _ _), List.get_append i hj]
                rw [hreduce]
                exact hlmk
              · exact htr
    · refine ⟨inc, m, lv :: rest, [], ?_, ?_⟩
      · simp only [matchLevels, if_neg hpos]
      · exact LevelsMatchOut.noopAll _ _ _ _ _ _ _ hS (fun hp => absurd hp hpos)

/-! ### Book well-formedness -/

/-- All resting ids of a book. -/
def bookRestingIds (b : OrderBook) : List String :=
  levelsOrderIds b.bidLevels ++ levelsOrderIds b.askLevels

/-- Well-formedness of a book: levels sorted by price (bids descending, asks
ascending), levels non-empty and populated by live LIMIT orders of the
matching side and price, resting ids globally distinct, the id map keyed by
the stored orders' own ids, and the book not crossed. -/
structure BookWf (b : OrderBook) : Prop where
  asksSorted : (levelPrices b.askLevels).Pairwise (· < ·)
  bidsSorted : (levelPrices b.bidLevels).Pairwise (· > ·)
  asksGood : SideWf b.orders b.symbol OrderSide.SELL b.askLevels
  bidsGood : SideWf b.orders b.symbol OrderSide.BUY b.bidLevels
  idsNodup : (bookRestingIds b).Nodup
  mapKeyed : ∀ kv ∈ b.orders, kv.2.orderId = kv.1
  uncrossed : ∀ pb ∈ b.getBestBid, ∀ pa ∈ b.getBestAsk, pb < pa

/-- Preconditions `add_order` faces on a freshly constructed order: exactly
the state `Order.create` establishes, routed to the right book with a
globally fresh id (the spec stipulates order ids are unique). -/
def NewOrderOk (b : OrderBook) (o : Order) : Prop :=
  o.symbol = b.symbol ∧ o.status = OrderStatus.PENDING ∧ o.filledQuantity = 0 ∧
  o.remainingQuantity = o.quantity ∧ 0 < o.quantity ∧ 0 < o.price ∧
  o.fills = [] ∧ alookup o.orderId b.orders = none

/-- The fields `Order.create` guarantees on success. -/
theorem Order.create_ok_props {sym : String} {ot : OrderType} {sd : OrderSide}
    {q : Qty} {pr : Option Price} {sid : Option String} {gid : String} {o : Order}
    (h : Order.create sym ot sd q pr sid gid = .ok o) :
    o.symbol = sym ∧ o.orderType = ot ∧ o.side = sd ∧ o.quantity = q ∧
    o.status = OrderStatus.PENDING ∧ o.filledQuantity = 0 ∧
    o.remainingQuantity = q ∧ 0 < q ∧ 0 < o.price ∧ o.fills = [] := by
  unfold Order.create at h
  by_cases h1 : q ≤ 0
  · rw [if_pos h1] at h
    exact Except.noConfusion h
  · rw [if_neg h1] at h
    by_cases h2 : (ot = OrderType.LIMIT ∨ ot = OrderType.IOC ∨ ot = OrderType.FOK) ∧ pr = none
    · rw [if_pos h2] at h
      exact Except.noConfusion h
    · rw [if_neg h2] at h
      cases pr with
      | none =>
        dsimp only at h
        exact Except.noConfusion h
      | some p =>
        dsimp only at h
        by_cases hp : p ≤ 0
        · rw [if_pos hp] at h
          exact Except.noConfusion h
        · rw [if_neg hp] at h
          injection h with h3
          subst h3
          exact ⟨rfl, rfl, rfl, rfl, rfl, rfl, rfl, not_le.mp h1, not_le.mp hp, rfl⟩

/-- Resting ids are keys of the id map. -/
theorem SideWf.ids_subset_keys {m : OrderMap} {sym : String} {side : OrderSide}
    {levels : List PriceLevel} (h : SideWf m sym side levels) :
    ∀ id ∈ levelsOrderIds levels, id ∈ akeys m := by
  intro id hid
  rw [levelsOrderIds] at hid
  obtain ⟨ids, hids, hmem⟩ := List.mem_flatten.mp hid
  obtain ⟨lv, hlv, rfl⟩ := List.mem_map.mp hids
  obtain ⟨o, hl, -⟩ := (h lv hlv).2 id hmem
  exact mem_akeys_of_alookup hl

/-- On a side whose levels are all non-empty, the lazy best-price scan
returns the head level. -/
theorem find_nonempty_eq_head {levels : List PriceLevel}
    (h : ∀ lv ∈ levels, lv.orderIds ≠ []) :
    levels.find? (fun lv => !lv.orderIds.isEmpty) = levels.head? := by
  cases levels with
  | nil => rfl
  | cons lv rest =>
    rw [List.find?_cons_of_pos]
    · rfl
    · have := h lv (List.mem_cons_self _ _)
      simp [this]

/-! ### Effects of `_add_to_book` on a side's level list -/

theorem insertAskLevel_split (lv : PriceLevel) :
    ∀ L : List PriceLevel,
      ∃ pre post, L = pre ++ post ∧ insertAskLevel lv L = pre ++ lv :: post
  | [] => ⟨[], [], rfl, rfl⟩
  | l :: ls => by
    by_cases h : lv.price < l.price
    · exact ⟨[], l :: ls, rfl, by rw [insertAskLevel, if_pos h]; rfl⟩
    · obtain ⟨pre, post, hsplit, hins⟩ := insertAskLevel_split lv ls
      exact ⟨l :: pre, post, by rw [hsplit]; rfl,
        by rw [insertAskLevel, if_neg h, hins]; rfl⟩

theorem insertBidLevel_split (lv : PriceLevel) :
    ∀ L : List PriceLevel,
      ∃ pre post, L = pre ++ post ∧ insertBidLevel lv L = pre ++ lv :: post
  | [] => ⟨[], [], rfl, rfl⟩
  | l :: ls => by
    by_cases h : l.price < lv.price
    · exact ⟨[], l :: ls, rfl, by rw [insertBidLevel, if_pos h]; rfl⟩
    · obtain ⟨pre, post, hsplit, hins⟩ := insertBidLevel_split lv ls
      exact ⟨l :: pre, post, by rw [hsplit]; rfl,
        by rw [insertBidLevel, if_neg h, hins]; rfl⟩

theorem levelPrices_append (L1 L2 : List PriceLevel) :
    levelPrices (L1 ++ L2) = levelPrices L1 ++ levelPrices L2 := by
  simp [levelPrices]

theorem levelsOrderIds_append (L1 L2 : List PriceLevel) :
    levelsOrderIds (L1 ++ L2) = levelsOrderIds L1 ++ levelsOrderIds L2 := by
  simp [levelsOrderIds]

theorem insertAskLevel_sorted (lv : PriceLevel) :
    ∀ L : List PriceLevel, (levelPrices L).Pairwise (· < ·) →
      lv.price ∉ levelPrices L →
      (levelPrices (insertAskLevel lv L)).Pairwise (· < ·)
  | [], _, _ => by simp [insertAskLevel, levelPrices]
  | l :: ls, hs, hm => by
    rw [levelPrices_cons] at hs hm
    have hs' := List.pairwise_cons.mp hs
    by_cases h : lv.price < l.price
    · rw [insertAskLevel, if_pos h, levelPrices_cons, levelPrices_cons]
      refine List.pairwise_cons.mpr ⟨?_, hs⟩
      intro x hx
      rcases List.mem_cons.mp hx with rfl | hx2
      · exact h
      · exact h.trans (hs'.1 x hx2)
    · rw [insertAskLevel, if_neg h, levelPrices_cons]
      have hm1 : lv.price ≠ l.price := fun e => hm (List.mem_cons.mpr (Or.inl e))
      have hlt : l.price < lv.price :=
        lt_of_le_of_ne (not_lt.mp h) (Ne.symm hm1)
      refine List.pairwise_cons.mpr ⟨?_, ?_⟩
      · intro x hx
        obtain ⟨pre, post, hsplit, hins⟩ := insertAskLevel_split lv ls
        rw [hins, levelPrices_append, levelPrices_cons] at hx
        rcases List.mem_append.mp hx with h1 | h2
        · exact hs'.1 x (by rw [hsplit, levelPrices_append]; exact List.mem_append_left _ h1)
        · rcases List.mem_cons.mp h2 with rfl | h3
          · exact hlt
          · exact hs'.1 x (by rw [hsplit, levelPrices_append]; exact List.mem_append_right _ h3)
      · exact insertAskLevel_sorted lv ls hs'.2 (fun e => hm (List.mem_cons_of_mem _ e))

theorem insertBidLevel_sorted (lv : PriceLevel) :
    ∀ L : List PriceLevel, (levelPrices L).Pairwise (· > ·) →
      lv.price ∉ levelPrices L →
      (levelPrices (insertBidLevel lv L)).Pairwise (· > ·)
  | [], _, _ => by simp [insertBidLevel, levelPrices]
  | l :: ls, hs, hm => by
    rw [levelPrices_cons] at hs hm
    have hs' := List.pairwise_cons.mp hs
    by_cases h : l.price < lv.price
    · rw [insertBidLevel, if_pos h, levelPrices_cons, levelPrices_cons]
      refine List.pairwise_cons.mpr ⟨?_, hs⟩
      intro x hx
      rcases List.mem_cons.mp hx with rfl | hx2
      · exact h
      · exact lt_trans (hs'.1 x hx2) h
    · rw [insertBidLevel, if_neg h, levelPrices_cons]
      have hm1 : lv.price ≠ l.price := fun e => hm (List.mem_cons.mpr (Or.inl e))
      have hlt : lv.price < l.price :=
        lt_of_le_of_ne (not_lt.mp h) hm1
      refine List.pairwise_cons.mpr ⟨?_, ?_⟩
      · intro x hx
        obtain ⟨pre, post, hsplit, hins⟩ := insertBidLevel_split lv ls
        rw [hins, levelPrices_append, levelPrices_cons] at hx
        rcases List.mem_append.mp hx with h1 | h2
        · exact hs'.1 x (by rw [hsplit, levelPrices_append]; exact List.mem_append_left _ h1)
        · rcases List.mem_cons.mp h2 with rfl | h3
          · exact hlt
          · exact hs'.1 x (by rw [hsplit, levelPrices_append]; exact List.mem_append_right _ h3)
      · exact insertBidLevel_sorted lv ls hs'.2 (fun e => hm (List.mem_cons_of_mem _ e))

theorem perm_swap_append {α : Type} (A X Y : List α) :
    (X ++ (A ++ Y)).Perm (A ++ (X ++ Y)) := by
  rw [← List.append_assoc, ← List.append_assoc]
  exact (List.perm_append_comm).append_right Y

theorem insert_split_ids_perm (lv : PriceLevel) (L pre post : List PriceLevel)
    (hsplit : L = pre ++ post) :
    (levelsOrderIds (pre ++ lv :: post)).Perm (lv.orderIds ++ levelsOrderIds L) := by
  subst hsplit
  rw [levelsOrderIds_append, levelsOrderIds_cons, levelsOrderIds_append]
  exact perm_swap_append lv.orderIds (levelsOrderIds pre) (levelsOrderIds post)

theorem map_id_of_no_price_match (o : Order) (L : List PriceLevel)
    (h : ∀ lv ∈ L, lv.price ≠ o.price) :
    L.map (fun lv => if lv.price = o.price then lv.addOrder o else lv) = L := by
  rw [List.map_congr_left (fun lv hlv => if_neg (h lv hlv))]
  exact List.map_id L

theorem replace_level_ids_perm (o : Order) :
    ∀ L : List PriceLevel, (levelPrices L).Nodup →
      (∃ lv ∈ L, lv.price = o.price) →
      (levelsOrderIds
        (L.map (fun lv => if lv.price = o.price then lv.addOrder o else lv))).Perm
        (o.orderId :: levelsOrderIds L)
  | [], _, hmem => by simp at hmem
  | l :: ls, hnd, hmem => by
    rw [levelPrices_cons] at hnd
    have hnd' := List.nodup_cons.mp hnd
    by_cases h : l.price = o.price
    · have hnomatch : ∀ lv ∈ ls, lv.price ≠ o.price := by
        intro lv hlv e
        exact hnd'.1 (by
          rw [h.trans e.symm]
          exact List.mem_map_of_mem _ hlv)
      rw [List.map_cons, if_pos h, map_id_of_no_price_match o ls hnomatch,
        levelsOrderIds_cons, levelsOrderIds_cons]
      show ((l.orderIds ++ [o.orderId]) ++ levelsOrderIds ls).Perm _
      exact (List.perm_append_singleton _ _).append_right _
    · have hmem' : ∃ lv ∈ ls, lv.price = o.price := by
        rcases hmem with ⟨lv, hlv, he⟩
        rcases List.mem_cons.mp hlv with rfl | h2
        · exact absurd he h
        · exact ⟨lv, h2, he⟩
      have ih := replace_level_ids_perm o ls hnd'.2 hmem'
      rw [List.map_cons, if_neg h, levelsOrderIds_cons, levelsOrderIds_cons]
      exact (ih.append_left l.orderIds).trans List.perm_middle

theorem levelPrices_replace (o : Order) (L : List PriceLevel) :
    levelPrices (L.map (fun lv => if lv.price = o.price then lv.addOrder o else lv)) =
      levelPrices L := by
  induction L with
  | nil => rfl
  | cons l ls ih =>
    rw [List.map_cons, levelPrices_cons]
    by_cases h : l.price = o.price
    · rw [if_pos h, levelPrices_cons, ih]
      rfl
    · rw [if_neg h, levelPrices_cons, ih]

theorem nodup_prices_of_sorted_gt {L : List PriceLevel}
    (h : (levelPrices L).Pairwise (· > ·)) : (levelPrices L).Nodup :=
  h.imp (fun hgt => ne_of_gt hgt)

theorem nodup_prices_of_sorted_lt {L : List PriceLevel}
    (h : (levelPrices L).Pairwise (· < ·)) : (levelPrices L).Nodup :=
  h.imp (fun hlt => ne_of_lt hlt)

theorem addToBook_bid_spec (b : OrderBook) (o : Order) (ho : o.side = OrderSide.BUY)
    (hsorted : (levelPrices b.bidLevels).Pairwise (· > ·)) :
    ∃ L', b.addToBook o = { b with bidLevels := L' } ∧
      (levelsOrderIds L').Perm (o.orderId :: levelsOrderIds b.bidLevels) ∧
      (levelPrices L').Pairwise (· > ·) ∧
      (∀ p' ∈ (levelPrices L').head?, p' = o.price ∨ (levelPrices b.bidLevels).head? = some p') ∧
      (∀ mF sym, SideWf mF sym OrderSide.BUY b.bidLevels →
        GoodResting mF sym OrderSide.BUY o.price o.orderId →
        SideWf mF sym OrderSide.BUY L') := by
  rw [OrderBook.addToBook, if_pos ho]
  cases hfind : b.bidLevels.find? (fun lv => decide (lv.price = o.price)) with
  | some lv =>
    have hlvmem := List.mem_of_find?_eq_some hfind
    have hlvp : lv.price = o.price := by simpa using List.find?_some hfind
    refine ⟨_, rfl, ?_, ?_, ?_, ?_⟩
    · exact replace_level_ids_perm o b.bidLevels (nodup_prices_of_sorted_gt hsorted)
        ⟨lv, hlvmem, hlvp⟩
    · rw [levelPrices_replace]
      exact hsorted
    · intro p' hp'
      rw [levelPrices_replace] at hp'
      exact Or.inr hp'
    · intro mF sym hS hGood
      intro lv2 h2
      obtain ⟨lv0, hlv0, heq0⟩ := List.mem_map.mp h2
      by_cases hm : lv0.price = o.price
      · rw [if_pos hm] at heq0
        subst heq0
        constructor
        · show lv0.orderIds ++ [o.orderId] ≠ []
          simp
        · intro id hid
          rcases List.mem_append.mp hid with h1 | h1
          · have := (hS lv0 hlv0).2 id h1
            show GoodResting mF sym OrderSide.BUY (PriceLevel.addOrder lv0 o).price id
            exact this
          · rcases List.mem_singleton.mp h1 with rfl
            show GoodResting mF sym OrderSide.BUY (PriceLevel.addOrder lv0 o).price o.orderId
            have : (PriceLevel.addOrder lv0 o).price = o.price := by
              show lv0.price = o.price
              exact hm
            rw [this]
            exact hGood
      · rw [if_neg hm] at heq0
        subst heq0
        exact hS lv0 hlv0
  | none =>
    have hnomem : o.price ∉ levelPrices b.bidLevels := by
      intro hmem
      obtain ⟨lv0, hlv0, heq0⟩ := List.mem_map.mp hmem
      have := List.find?_eq_none.mp hfind lv0 hlv0
      simp [heq0] at this
    obtain ⟨pre, post, hsplit, hins⟩ :=
      insertBidLevel_split (PriceLevel.addOrder ⟨o.price, [], 0⟩ o) b.bidLevels
    refine ⟨_, rfl, ?_, ?_, ?_, ?_⟩
    · rw [hins]
      exact insert_split_ids_perm _ _ pre post hsplit
    · have : (PriceLevel.addOrder ⟨o.price, [], 0⟩ o).price = o.price := rfl
      exact insertBidLevel_sorted _ b.bidLevels hsorted (by rw [this]; exact hnomem)
    · intro p' hp'
      rw [hins] at hp'
      cases pre with
      | nil =>
        simp only [List.nil_append, levelPrices_cons, List.head?_cons, Option.mem_def,
          Option.some.injEq] at hp'
        subst hp'
        exact Or.inl rfl
      | cons l pre' =>
        rw [hsplit]
        simp only [List.cons_append, levelPrices_cons, List.head?_cons] at hp' ⊢
        exact Or.inr hp'
    · intro mF sym hS hGood
      intro lv2 h2
      rw [hins] at h2
      rcases List.mem_append.mp h2 with h1 | h1
      · exact hS lv2 (by rw [hsplit]; exact List.mem_append_left _ h1)
      · rcases List.mem_cons.mp h1 with rfl | h3
        · constructor
          · show [] ++ [o.orderId] ≠ []
            simp
          · intro id hid
            have hid2 : id ∈ [o.orderId] := by simpa [PriceLevel.addOrder] using hid
            rcases List.mem_singleton.mp hid2 with rfl
            exact hGood
        · exact hS lv2 (by rw [hsplit]; exact List.mem_append_right _ h3)

theorem addToBook_ask_spec (b : OrderBook) (o : Order) (ho : o.side ≠ OrderSide.BUY)
    (hsorted : (levelPrices b.askLevels).Pairwise (· < ·)) :
    ∃ L', b.addToBook o = { b with askLevels := L' } ∧
      (levelsOrderIds L').Perm (o.orderId :: levelsOrderIds b.askLevels) ∧
      (levelPrices L').Pairwise (· < ·) ∧
      (∀ p' ∈ (levelPrices L').head?, p' = o.price ∨ (levelPrices b.askLevels).head? = some p') ∧
      (∀ mF sym, SideWf mF sym OrderSide.SELL b.askLevels →
        GoodResting mF sym OrderSide.SELL o.price o.orderId →
        SideWf mF sym OrderSide.SELL L') := by
  rw [OrderBook.addToBook, if_neg ho]
  cases hfind : b.askLevels.find? (fun lv => decide (lv.price = o.price)) with
  | some lv =>
    have hlvmem := List.mem_of_find?_eq_some hfind
    have hlvp : lv.price = o.price := by simpa using List.find?_some hfind
    refine ⟨_, rfl, ?_, ?_, ?_, ?_⟩
    · exact replace_level_ids_perm o b.askLevels (nodup_prices_of_sorted_lt hsorted)
        ⟨lv, hlvmem, hlvp⟩
    · rw [levelPrices_replace]
      exact hsorted
    · intro p' hp'
      rw [levelPrices_replace] at hp'
      exact Or.inr hp'
    · intro mF sym hS hGood
      intro lv2 h2
      obtain ⟨lv0, hlv0, heq0⟩ := List.mem_map.mp h2
      by_cases hm : lv0.price = o.price
      · rw [if_pos hm] at heq0
        subst heq0
        constructor
        · show lv0.orderIds ++ [o.orderId] ≠ []
          simp
        · intro id hid
          rcases List.mem_append.mp hid with h1 | h1
          · have := (hS lv0 hlv0).2 id h1
            show GoodResting mF sym OrderSide.SELL (PriceLevel.addOrder lv0 o).price id
            exact this
          · rcases List.mem_singleton.mp h1 with rfl
            show GoodResting mF sym OrderSide.SELL (PriceLevel.addOrder lv0 o).price o.orderId
            have hpe : (PriceLevel.addOrder lv0 o).price = o.price := hm
            rw [hpe]
            exact hGood
      · rw [if_neg hm] at heq0
        subst heq0
        exact hS lv0 hlv0
  | none =>
    have hnomem : o.price ∉ levelPrices b.askLevels := by
      intro hmem
      obtain ⟨lv0, hlv0, heq0⟩ := List.mem_map.mp hmem
      have := List.find?_eq_none.mp hfind lv0 hlv0
      simp [heq0] at this
    obtain ⟨pre, post, hsplit, hins⟩ :=
      insertAskLevel_split (PriceLevel.addOrder ⟨o.price, [], 0⟩ o) b.askLevels
    refine ⟨_, rfl, ?_, ?_, ?_, ?_⟩
    · rw [hins]
      exact insert_split_ids_perm _ _ pre post hsplit
    · exact insertAskLevel_sorted _ b.askLevels hsorted hnomem
    · intro p' hp'
      rw [hins] at hp'
      cases pre with
      | nil =>
        simp only [List.nil_append, levelPrices_cons, List.head?_cons, Option.mem_def,
          Option.some.injEq] at hp'
        subst hp'
        exact Or.inl rfl
      | cons l pre' =>
        rw [hsplit]
        simp only [List.cons_append, levelPrices_cons, List.head?_cons] at hp' ⊢
        exact Or.inr hp'
    · intro mF sym hS hGood
      intro lv2 h2
      rw [hins] at h2
      rcases List.mem_append.mp h2 with h1 | h1
      · exact hS lv2 (by rw [hsplit]; exact List.mem_append_left _ h1)
      · rcases List.mem_cons.mp h1 with rfl | h3
        · constructor
          · show [] ++ [o.orderId] ≠ []
            simp
          · intro id hid
            have hid2 : id ∈ [o.orderId] := by simpa [PriceLevel.addOrder] using hid
            rcases List.mem_singleton.mp hid2 with rfl
            exact hGood
        · exact hS lv2 (by rw [hsplit]; exact List.mem_append_right _ h3)

/-! ### Transport and query helper lemmas -/

theorem SideWf.lookup_congr {m m' : OrderMap} {sym : String} {side : OrderSide}
    {L : List PriceLevel} (h : SideWf m sym side L)
    (hc : ∀ id ∈ levelsOrderIds L, alookup id m' = alookup id m) :
    SideWf m' sym side L := by
  intro lv hlv
  refine ⟨(h lv hlv).1, ?_⟩
  intro id hid
  obtain ⟨o2, hl2, h2a, h2b, h2c, h2d, h2e, h2f, h2g⟩ := (h lv hlv).2 id hid
  have hmem : id ∈ levelsOrderIds L := by
    rw [levelsOrderIds]
    exact List.mem_flatten.mpr ⟨lv.orderIds, List.mem_map_of_mem _ hlv, hid⟩
  exact ⟨o2, (hc id hmem).trans hl2, h2a, h2b, h2c, h2d, h2e, h2f, h2g⟩

theorem SideWf.nonempty_levels {m : OrderMap} {sym : String} {side : OrderSide}
    {L : List PriceLevel} (h : SideWf m sym side L) :
    ∀ lv ∈ L, lv.orderIds ≠ [] :=
  fun lv hlv => (h lv hlv).1

theorem getBestBid_eq_head {b : OrderBook} (h : ∀ lv ∈ b.bidLevels, lv.orderIds ≠ []) :
    b.getBestBid = (levelPrices b.bidLevels).head? := by
  rw [OrderBook.getBestBid, find_nonempty_eq_head h, levelPrices, List.head?_map]

theorem getBestAsk_eq_head {b : OrderBook} (h : ∀ lv ∈ b.askLevels, lv.orderIds ≠ []) :
    b.getBestAsk = (levelPrices b.askLevels).head? := by
  rw [OrderBook.getBestAsk, find_nonempty_eq_head h, levelPrices, List.head?_map]

theorem firstPrice_eq_head {L : List PriceLevel} (h : ∀ lv ∈ L, lv.orderIds ≠ []) :
    (L.find? (fun lv => !lv.orderIds.isEmpty)).map (·.price) = (levelPrices L).head? := by
  rw [find_nonempty_eq_head h, levelPrices, List.head?_map]

theorem sorted_head_le_of_mem_drop {l : List Price} (hs : l.Pairwise (· < ·))
    {x : Price} {n : Nat} (hx : x ∈ l.drop n) : ∀ hd ∈ l.head?, hd ≤ x := by
  intro hd hhd
  cases l with
  | nil => simp at hhd
  | cons a rest =>
    rw [List.head?_cons, Option.mem_def, Option.some.injEq] at hhd
    subst hhd
    have hmem : x ∈ a :: rest := (List.drop_sublist n _).mem hx
    rcases List.mem_cons.mp hmem with rfl | h2
    · exact le_refl x
    · exact le_of_lt ((List.pairwise_cons.mp hs).1 x h2)

theorem sorted_head_ge_of_mem_drop {l : List Price} (hs : l.Pairwise (· > ·))
    {x : Price} {n : Nat} (hx : x ∈ l.drop n) : ∀ hd ∈ l.head?, x ≤ hd := by
  intro hd hhd
  cases l with
  | nil => simp at hhd
  | cons a rest =>
    rw [List.head?_cons, Option.mem_def, Option.some.injEq] at hhd
    subst hhd
    have hmem : x ∈ a :: rest := (List.drop_sublist n _).mem hx
    rcases List.mem_cons.mp hmem with rfl | h2
    · exact le_refl x
    · exact le_of_lt ((List.pairwise_cons.mp hs).1 x h2)

/-- What `_is_marketable = False` means for a BUY order. -/
theorem not_marketable_buy {b : OrderBook} {o : Order} (hside : o.side = OrderSide.BUY)
    (h : b.isMarketable o = false) :
    o.orderType ≠ OrderType.MARKET ∧ ∀ pa ∈ b.getBestAsk, o.price < pa := by
  rw [OrderBook.isMarketable] at h
  by_cases hmkt : o.orderType = OrderType.MARKET
  · rw [if_pos hmkt] at h
    exact Bool.noConfusion h
  · rw [if_neg hmkt, if_pos hside] at h
    refine ⟨hmkt, ?_⟩
    intro pa hpa
    rw [Option.mem_def] at hpa
    rw [hpa] at h
    simpa using h

/-- What `_is_marketable = False` means for a SELL order. -/
theorem not_marketable_sell {b : OrderBook} {o : Order} (hside : o.side ≠ OrderSide.BUY)
    (h : b.isMarketable o = false) :
    o.orderType ≠ OrderType.MARKET ∧ ∀ pb ∈ b.getBestBid, pb < o.price := by
  rw [OrderBook.isMarketable] at h
  by_cases hmkt : o.orderType = OrderType.MARKET
  · rw [if_pos hmkt] at h
    exact Bool.noConfusion h
  · rw [if_neg hmkt, if_neg hside] at h
    refine ⟨hmkt, ?_⟩
    intro pb hpb
    rw [Option.mem_def] at hpb
    rw [hpb] at h
    simpa using h

/-- The IOC/FOK residual step of `_match_order` always succeeds on an order
whose status permits cancellation, and at most flips the status to
CANCELLED (only for IOC/FOK orders). -/
theorem handleResidual_spec (inc1 : Order)
    (h : inc1.remainingQuantity ≠ 0 →
      inc1.status ≠ OrderStatus.FILLED ∧ inc1.status ≠ OrderStatus.CANCELLED) :
    ∃ inc2, handleResidual inc1 = .ok inc2 ∧
      (inc2 = inc1 ∨
        (inc2 = { inc1 with status := OrderStatus.CANCELLED } ∧
          (inc1.orderType = OrderType.IOC ∨ inc1.orderType = OrderType.FOK))) := by
  rw [handleResidual]
  by_cases h1 : inc1.orderType = OrderType.IOC ∧ 0 < inc1.remainingQuantity
  · rw [if_pos h1, Order.cancel, if_neg ?_]
    · exact ⟨_, rfl, Or.inr ⟨rfl, Or.inl h1.1⟩⟩
    · have := h (ne_of_gt h1.2)
      rintro (e | e)
      · exact this.1 e
      · exact this.2 e
  · rw [if_neg h1]
    by_cases h2 : inc1.orderType = OrderType.FOK ∧ ¬ inc1.isFilled
    · rw [if_pos h2, Order.cancel, if_neg ?_]
      · exact ⟨_, rfl, Or.inr ⟨rfl, Or.inr h2.1⟩⟩
      · have := h h2.2
        rintro (e | e)
        · exact this.1 e
        · exact this.2 e
    · rw [if_neg h2]
      exact ⟨inc1, rfl, Or.inl rfl⟩

/-- The opposite side's resting ids, in matching order. -/
def oppositeRestingIds (b : OrderBook) (side : OrderSide) : List String :=
  if side = OrderSide.BUY then levelsOrderIds b.askLevels else levelsOrderIds b.bidLevels

/-- What `OrderBook.add_order` guarantees on a well-formed book and a fresh
valid order. -/
structure AddOrderOut (b : OrderBook) (o : Order) (b' : OrderBook) (ts : List Trade) : Prop where
  wf : BookWf b'
  symbol_eq : b'.symbol = b.symbol
  final_order : ∃ fo, alookup o.orderId b'.orders = some fo ∧ fo.orderId = o.orderId ∧
    fo.symbol = o.symbol ∧ fo.side = o.side ∧ fo.orderType = o.orderType ∧
    fo.price = o.price ∧ fo.quantity = o.quantity
  keys_grow : akeys b'.orders = akeys b.orders ++ [o.orderId]
  aligned : ∀ i, ∀ hi : i < ts.length,
    ∃ (hj : i < (oppositeRestingIds b o.side).length) (maker : Order),
      alookup ((oppositeRestingIds b o.side).get ⟨i, hj⟩) b.orders = some maker ∧
      ts.get ⟨i, hi⟩ =
        { symbol := b.symbol, price := maker.price,
          quantity := min (o.remainingQuantity - tradeQtySumTake ts i) maker.remainingQuantity,
          makerOrderId := maker.orderId, takerOrderId := o.orderId,
          aggressorSide := o.side }

theorem OrderBook.addOrder_spec (b : OrderBook) (o : Order) (hwf : BookWf b)
    (hnew : NewOrderOk b o) :
    ∃ b' ts, b.addOrder o = .ok (b', ts) ∧ AddOrderOut b o b' ts := by
  obtain ⟨hsym, hstatus, hfilled, hremq, hq, hp, hfills, hfresh⟩ := hnew
  have hrem : 0 < o.remainingQuantity := by rw [hremq]; exact hq
  have hfreshk : o.orderId ∉ akeys b.orders := not_mem_akeys_of_alookup_none hfresh
  have hfreshask : o.orderId ∉ levelsOrderIds b.askLevels :=
    fun hm => hfreshk (hwf.asksGood.ids_subset_keys _ hm)
  have hfreshbid : o.orderId ∉ levelsOrderIds b.bidLevels :=
    fun hm => hfreshk (hwf.bidsGood.ids_subset_keys _ hm)
  have hNsides := List.nodup_append.mp hwf.idsNodup
  by_cases hside : o.side = OrderSide.BUY
  · -- BUY: match against asks, possibly rest on bids
    cases hmk : b.isMarketable o with
    | true =>
      obtain ⟨inc1, m1, asks1, ts, heqL, out⟩ :=
        matchLevels_spec b.symbol b.symbol OrderSide.SELL
          (fun p => decide (p ≤ o.price)) b.askLevels o b.orders
          hwf.asksGood hNsides.2.1 hfreshask
      have hst : inc1.remainingQuantity ≠ 0 →
          inc1.status ≠ OrderStatus.FILLED ∧ inc1.status ≠ OrderStatus.CANCELLED := by
        intro hne
        by_cases hts : ts = []
        · rw [out.nil_frozen hts, hstatus]
          exact ⟨fun e => OrderStatus.noConfusion e, fun e => OrderStatus.noConfusion e⟩
        · rw [out.status_after hts, if_neg hne]
          exact ⟨fun e => OrderStatus.noConfusion e, fun e => OrderStatus.noConfusion e⟩
      obtain ⟨inc2, hres, hdisj⟩ := handleResidual_spec inc1 hst
      have heqMO : b.matchOrder o = .ok (inc2, { b with orders := m1, askLevels := asks1 }, ts) := by
        rw [OrderBook.matchOrder, if_pos hside, heqL]
        dsimp only
        rw [hres]
      -- status of inc1 when it rests
      have hst1 : ts = [] → inc1.status = OrderStatus.PENDING := by
        intro hts
        rw [out.nil_frozen hts, hstatus]
      -- the 50-50 on whether a LIMIT residual rests
      by_cases hrest2 : 0 < inc2.remainingQuantity ∧ inc2.orderType = OrderType.LIMIT
      · -- the residual rests: the cancel branch is impossible (IOC/FOK)
        have hinc21 : inc2 = inc1 := by
          rcases hdisj with h1 | h1
          · exact h1
          · exfalso
            have : inc1.orderType = OrderType.LIMIT := by
              have := hrest2.2
              rw [h1.1] at this
              exact this
            rcases h1.2 with e | e <;> rw [this] at e <;> exact OrderType.noConfusion e
        subst hinc21
        have hrem1 : 0 < inc2.remainingQuantity := hrest2.1
        have hgoodInc : ∀ mF, alookup inc2.orderId mF = some inc2 →
            GoodResting mF b.symbol OrderSide.BUY inc2.price inc2.orderId := by
          intro mF hl
          refine ⟨inc2, hl, rfl, ?_, ?_, hrest2.2, rfl, hrem1, ?_⟩
          · rw [out.symbol_eq, hsym]
          · rw [out.side_eq, hside]
          · by_cases hts : ts = []
            · rw [out.nil_frozen hts, hstatus]
              exact Or.inl rfl
            · rw [out.status_after hts, if_neg (ne_of_gt hrem1)]
              exact Or.inr rfl
        have hb1sorted : (levelPrices ({ b with orders := m1, askLevels := asks1 } : OrderBook).bidLevels).Pairwise (· > ·) :=
          hwf.bidsSorted
        obtain ⟨L', heqB, permB, sortedB, headB, goodB⟩ :=
          addToBook_bid_spec { b with orders := m1, askLevels := asks1 } inc2
            (by rw [out.side_eq]; exact hside) hb1sorted
        have heqAdd : b.addOrder o =
            .ok ({ symbol := b.symbol, bidLevels := L', askLevels := asks1,
                   orders := ainsert o.orderId inc2 m1 }, ts) := by
          rw [OrderBook.addOrder, if_neg (by rw [hsym]; exact fun h => h rfl), hmk,
            if_pos rfl, heqMO]
          dsimp only
          rw [if_pos hrest2, heqB]
        refine ⟨_, ts, heqAdd, ?_⟩
        -- the price of the rested order
        have hpr : inc2.price = o.price := out.price_eq
        -- final map facts
        have hoidmem : alookup o.orderId (ainsert o.orderId inc2 m1) = some inc2 :=
          alookup_ainsert_self _ _ _
        have hcong1 : ∀ id ∈ levelsOrderIds asks1,
            alookup id (ainsert o.orderId inc2 m1) = alookup id m1 := by
          intro id hid
          refine alookup_ainsert_ne _ _ ?_
          intro e
          subst e
          exact hfreshask (out.ids_sublist.mem hid)
        have hcongBid : ∀ id ∈ levelsOrderIds b.bidLevels,
            alookup id (ainsert o.orderId inc2 m1) = alookup id b.orders := by
          intro id hid
          have h1 : alookup id (ainsert o.orderId inc2 m1) = alookup id m1 :=
            alookup_ainsert_ne _ _ (fun e => by subst e; exact hfreshbid hid)
          have h2 : alookup id m1 = alookup id b.orders :=
            out.untouched id (fun hmem => (hNsides.2.2 hid hmem))
          exact h1.trans h2
        have hbidsGoodF : SideWf (ainsert o.orderId inc2 m1) b.symbol OrderSide.BUY b.bidLevels :=
          hwf.bidsGood.lookup_congr hcongBid
        have hasksGoodF : SideWf (ainsert o.orderId inc2 m1) b.symbol OrderSide.SELL asks1 :=
          out.survivors.lookup_congr hcong1
        have hbidsGoodL' : SideWf (ainsert o.orderId inc2 m1) b.symbol OrderSide.BUY L' :=
          goodB (ainsert o.orderId inc2 m1) b.symbol hbidsGoodF
            (hgoodInc (ainsert o.orderId inc2 m1) (by rw [out.id_eq]; exact hoidmem))
        refine
          { wf := ?_, symbol_eq := rfl, final_order := ?_, keys_grow := ?_, aligned := ?_ }
        · refine
            { asksSorted := ?_, bidsSorted := sortedB, asksGood := hasksGoodF
              bidsGood := hbidsGoodL', idsNodup := ?_, mapKeyed := ?_, uncrossed := ?_ }
          · obtain ⟨n, hn, hpfx⟩ := out.prices_suffix
            rw [hpfx]
            exact hwf.asksSorted.sublist (List.drop_sublist n _)
          · -- Nodup of (ids L' ++ ids asks1)
            show ((levelsOrderIds L') ++ (levelsOrderIds asks1)).Nodup
            have hperm : ((levelsOrderIds L') ++ (levelsOrderIds asks1)).Perm
                ((inc2.orderId :: levelsOrderIds b.bidLevels) ++ levelsOrderIds asks1) :=
              permB.append_right _
            refine hperm.nodup_iff.mpr ?_
            rw [List.cons_append]
            refine List.nodup_cons.mpr ⟨?_, ?_⟩
            · rw [out.id_eq]
              intro hm
              rcases List.mem_append.mp hm with h1 | h1
              · exact hfreshbid h1
              · exact hfreshask (out.ids_sublist.mem h1)
            · refine List.Nodup.sublist ?_ hwf.idsNodup
              exact (List.Sublist.refl _).append out.ids_sublist
          · exact ainsert_keyed (out.keyed hwf.mapKeyed) out.id_eq
          · -- uncrossed
            intro pb' hpb' pa' hpa'
            rw [getBestBid_eq_head (hbidsGoodL'.nonempty_levels)] at hpb'
            rw [getBestAsk_eq_head (hasksGoodF.nonempty_levels)] at hpa'
            obtain ⟨n, hn, hpfx⟩ := out.prices_suffix
            have hpamem : pa' ∈ (levelPrices b.askLevels).drop n := by
              rw [← hpfx]
              exact List.mem_of_mem_head? hpa'
            have hpa'ge : ∀ hd ∈ (levelPrices b.askLevels).head?, hd ≤ pa' :=
              sorted_head_le_of_mem_drop hwf.asksSorted hpamem
            rcases headB pb' hpb' with hcase | hcase
            · -- best bid is the freshly rested order's price
              subst hcase
              rw [out.price_eq]
              rcases out.stop_reason hrem1 with hempty | ⟨-, lv, rest2, hsh, hcmp⟩
              · rw [hempty] at hpa'
                simp [levelPrices] at hpa'
              · rw [hsh, levelPrices_cons, List.head?_cons, Option.mem_def,
                  Option.some.injEq] at hpa'
                subst hpa'
                have hle : ¬ (lv.price ≤ o.price) := by simpa using hcmp
                exact not_le.mp hle
            · -- best bid is the old best bid
              have hbid : pb' ∈ b.getBestBid := by
                rw [getBestBid_eq_head (hwf.bidsGood.nonempty_levels)]
                exact hcase
              have hasksne : b.askLevels ≠ [] := by
                intro he
                rw [he] at hpamem
                simp [levelPrices] at hpamem
              obtain ⟨lv0, ls0, hls0⟩ := List.exists_cons_of_ne_nil hasksne
              have hask : lv0.price ∈ b.getBestAsk := by
                rw [getBestAsk_eq_head (hwf.asksGood.nonempty_levels), hls0]
                rfl
              have h1 : pb' < lv0.price := hwf.uncrossed pb' hbid lv0.price hask
              have h2 : lv0.price ≤ pa' := by
                refine hpa'ge lv0.price ?_
                rw [hls0]
                rfl
              exact lt_of_lt_of_le h1 h2
        · refine ⟨inc2, hoidmem, out.id_eq, ?_, ?_, ?_, ?_, out.quantity_eq⟩
          · rw [out.symbol_eq]
          · rw [out.side_eq]
          · rw [out.type_eq]
          · exact out.price_eq
        · rw [akeys_ainsert_of_not_mem _ (by rw [out.keys_eq]; exact hfreshk), out.keys_eq]
        · intro i hi
          rw [oppositeRestingIds, if_pos hside]
          exact out.aligned i hi
      · -- the residual does not rest
        have heqAdd : b.addOrder o =
            .ok ({ symbol := b.symbol, bidLevels := b.bidLevels, askLevels := asks1,
                   orders := ainsert o.orderId inc2 m1 }, ts) := by
          rw [OrderBook.addOrder, if_neg (by rw [hsym]; exact fun h => h rfl), hmk,
            if_pos rfl, heqMO]
          dsimp only
          rw [if_neg hrest2]
        refine ⟨_, ts, heqAdd, ?_⟩
        have hprj : inc2.orderId = inc1.orderId ∧ inc2.symbol = inc1.symbol ∧
            inc2.side = inc1.side ∧ inc2.orderType = inc1.orderType ∧
            inc2.price = inc1.price ∧ inc2.quantity = inc1.quantity := by
          rcases hdisj with rfl | ⟨h1, -⟩
          · exact ⟨rfl, rfl, rfl, rfl, rfl, rfl⟩
          · rw [h1]
            exact ⟨rfl, rfl, rfl, rfl, rfl, rfl⟩
        have hideq : inc2.orderId = o.orderId := hprj.1.trans out.id_eq
        have hoidmem : alookup o.orderId (ainsert o.orderId inc2 m1) = some inc2 :=
          alookup_ainsert_self _ _ _
        have hcong1 : ∀ id ∈ levelsOrderIds asks1,
            alookup id (ainsert o.orderId inc2 m1) = alookup id m1 := by
          intro id hid
          refine alookup_ainsert_ne _ _ ?_
          intro e
          subst e
          exact hfreshask (out.ids_sublist.mem hid)
        have hcongBid : ∀ id ∈ levelsOrderIds b.bidLevels,
            alookup id (ainsert o.orderId inc2 m1) = alookup id b.orders := by
          intro id hid
          have h1 : alookup id (ainsert o.orderId inc2 m1) = alookup id m1 :=
            alookup_ainsert_ne _ _ (fun e => by subst e; exact hfreshbid hid)
          exact h1.trans (out.untouched id (fun hmem => (hNsides.2.2 hid hmem)))
        have hasksGoodF : SideWf (ainsert o.orderId inc2 m1) b.symbol OrderSide.SELL asks1 :=
          out.survivors.lookup_congr hcong1
        have hbidsGoodF : SideWf (ainsert o.orderId inc2 m1) b.symbol OrderSide.BUY b.bidLevels :=
          hwf.bidsGood.lookup_congr hcongBid
        refine
          { wf := ?_, symbol_eq := rfl, final_order := ?_, keys_grow := ?_, aligned := ?_ }
        · refine
            { asksSorted := ?_, bidsSorted := hwf.bidsSorted, asksGood := hasksGoodF
              bidsGood := hbidsGoodF, idsNodup := ?_, mapKeyed := ?_, uncrossed := ?_ }
          · obtain ⟨n, hn, hpfx⟩ := out.prices_suffix
            rw [hpfx]
            exact hwf.asksSorted.sublist (List.drop_sublist n _)
          · show ((levelsOrderIds b.bidLevels) ++ (levelsOrderIds asks1)).Nodup
            refine List.Nodup.sublist ?_ hwf.idsNodup
            exact (List.Sublist.refl _).append out.ids_sublist
          · exact ainsert_keyed (out.keyed hwf.mapKeyed) hideq
          · intro pb' hpb' pa' hpa'
            have hbid : pb' ∈ b.getBestBid := hpb'
            have hpa2 : pa' ∈ (levelPrices asks1).head? := by
              rw [← firstPrice_eq_head (hasksGoodF.nonempty_levels)]
              exact hpa'
            obtain ⟨n, hn, hpfx⟩ := out.prices_suffix
            have hpamem : pa' ∈ (levelPrices b.askLevels).drop n := by
              rw [← hpfx]
              exact List.mem_of_mem_head? hpa2
            have hpa'ge : ∀ hd ∈ (levelPrices b.askLevels).head?, hd ≤ pa' :=
              sorted_head_le_of_mem_drop hwf.asksSorted hpamem
            have hasksne : b.askLevels ≠ [] := by
              intro he
              rw [he] at hpamem
              simp [levelPrices] at hpamem
            obtain ⟨lv0, ls0, hls0⟩ := List.exists_cons_of_ne_nil hasksne
            have hask : lv0.price ∈ b.getBestAsk := by
              rw [getBestAsk_eq_head (hwf.asksGood.nonempty_levels), hls0]
              rfl
            have h1 : pb' < lv0.price := hwf.uncrossed pb' hbid lv0.price hask
            have h2 : lv0.price ≤ pa' := by
              refine hpa'ge lv0.price ?_
              rw [hls0]
              rfl
            exact lt_of_lt_of_le h1 h2
        · refine ⟨inc2, hoidmem, hideq, ?_, ?_, ?_, ?_, ?_⟩
          · rw [hprj.2.1, out.symbol_eq]
          · rw [hprj.2.2.1, out.side_eq]
          · rw [hprj.2.2.2.1, out.type_eq]
          · rw [hprj.2.2.2.2.1, out.price_eq]
          · rw [hprj.2.2.2.2.2, out.quantity_eq]
        · rw [akeys_ainsert_of_not_mem _ (by rw [out.keys_eq]; exact hfreshk), out.keys_eq]
        · intro i hi
          rw [oppositeRestingIds, if_pos hside]
          exact out.aligned i hi
    | false =>
      -- not marketable: no matching happens; the order may still rest
      have hnm := not_marketable_buy hside hmk
      by_cases hrest2 : 0 < o.remainingQuantity ∧ o.orderType = OrderType.LIMIT
      · obtain ⟨L', heqB, permB, sortedB, headB, goodB⟩ :=
          addToBook_bid_spec b o hside hwf.bidsSorted
        have heqAdd : b.addOrder o =
            .ok ({ symbol := b.symbol, bidLevels := L', askLevels := b.askLevels,
                   orders := ainsert o.orderId o b.orders }, []) := by
          rw [OrderBook.addOrder, if_neg (by rw [hsym]; exact fun h => h rfl), hmk]
          rw [if_neg (by simp : ¬ (false = true))]
          dsimp only
          rw [if_pos hrest2, heqB]
        refine ⟨_, [], heqAdd, ?_⟩
        have hoidmem : alookup o.orderId (ainsert o.orderId o b.orders) = some o :=
          alookup_ainsert_self _ _ _
        have hcongAsk : ∀ id ∈ levelsOrderIds b.askLevels,
            alookup id (ainsert o.orderId o b.orders) = alookup id b.orders :=
          fun id hid => alookup_ainsert_ne _ _ (fun e => by subst e; exact hfreshask hid)
        have hcongBid : ∀ id ∈ levelsOrderIds b.bidLevels,
            alookup id (ainsert o.orderId o b.orders) = alookup id b.orders :=
          fun id hid => alookup_ainsert_ne _ _ (fun e => by subst e; exact hfreshbid hid)
        have hasksGoodF : SideWf (ainsert o.orderId o b.orders) b.symbol OrderSide.SELL
            b.askLevels := hwf.asksGood.lookup_congr hcongAsk
        have hbidsGoodF : SideWf (ainsert o.orderId o b.orders) b.symbol OrderSide.BUY
            b.bidLevels := hwf.bidsGood.lookup_congr hcongBid
        have hbidsGoodL' : SideWf (ainsert o.orderId o b.orders) b.symbol OrderSide.BUY L' :=
          goodB _ _ hbidsGoodF
            ⟨o, hoidmem, rfl, hsym, hside, hrest2.2, rfl, hrem, Or.inl hstatus⟩
        refine
          { wf := ?_, symbol_eq := rfl, final_order := ?_, keys_grow := ?_, aligned := ?_ }
        · refine
            { asksSorted := hwf.asksSorted, bidsSorted := sortedB, asksGood := hasksGoodF
              bidsGood := hbidsGoodL', idsNodup := ?_, mapKeyed := ?_, uncrossed := ?_ }
          · show ((levelsOrderIds L') ++ (levelsOrderIds b.askLevels)).Nodup
            refine (permB.append_right _).nodup_iff.mpr ?_
            rw [List.cons_append]
            refine List.nodup_cons.mpr ⟨?_, hwf.idsNodup⟩
            intro hm
            rcases List.mem_append.mp hm with h1 | h1
            · exact hfreshbid h1
            · exact hfreshask h1
          · exact ainsert_keyed hwf.mapKeyed rfl
          · intro pb' hpb' pa' hpa'
            have hpb2 : pb' ∈ (levelPrices L').head? := by
              rw [← firstPrice_eq_head (hbidsGoodL'.nonempty_levels)]
              exact hpb'
            have hask : pa' ∈ b.getBestAsk := hpa'
            rcases headB pb' hpb2 with hcase | hcase
            · subst hcase
              exact hnm.2 pa' hask
            · have hbid : pb' ∈ b.getBestBid := by
                rw [getBestBid_eq_head (hwf.bidsGood.nonempty_levels)]
                exact hcase
              exact hwf.uncrossed pb' hbid pa' hask
        · exact ⟨o, hoidmem, rfl, rfl, rfl, rfl, rfl, rfl⟩
        · rw [akeys_ainsert_of_not_mem _ hfreshk]
        · intro i hi
          simp at hi
      · have heqAdd : b.addOrder o =
            .ok ({ symbol := b.symbol, bidLevels := b.bidLevels, askLevels := b.askLevels,
                   orders := ainsert o.orderId o b.orders }, []) := by
          rw [OrderBook.addOrder, if_neg (by rw [hsym]; exact fun h => h rfl), hmk]
          rw [if_neg (by simp : ¬ (false = true))]
          dsimp only
          rw [if_neg hrest2]
        refine ⟨_, [], heqAdd, ?_⟩
        have hoidmem : alookup o.orderId (ainsert o.orderId o b.orders) = some o :=
          alookup_ainsert_self _ _ _
        have hcongAsk : ∀ id ∈ levelsOrderIds b.askLevels,
            alookup id (ainsert o.orderId o b.orders) = alookup id b.orders :=
          fun id hid => alookup_ainsert_ne _ _ (fun e => by subst e; exact hfreshask hid)
        have hcongBid : ∀ id ∈ levelsOrderIds b.bidLevels,
            alookup id (ainsert o.orderId o b.orders) = alookup id b.orders :=
          fun id hid => alookup_ainsert_ne _ _ (fun e => by subst e; exact hfreshbid hid)
        have hasksGoodF : SideWf (ainsert o.orderId o b.orders) b.symbol OrderSide.SELL
            b.askLevels := hwf.asksGood.lookup_congr hcongAsk
        have hbidsGoodF : SideWf (ainsert o.orderId o b.orders) b.symbol OrderSide.BUY
            b.bidLevels := hwf.bidsGood.lookup_congr hcongBid
        refine
          { wf := ?_, symbol_eq := rfl, final_order := ?_, keys_grow := ?_, aligned := ?_ }
        · refine
            { asksSorted := hwf.asksSorted, bidsSorted := hwf.bidsSorted
              asksGood := hasksGoodF, bidsGood := hbidsGoodF
              idsNodup := hwf.idsNodup, mapKeyed := ainsert_keyed hwf.mapKeyed rfl
              uncrossed := ?_ }
          · intro pb' hpb' pa' hpa'
            exact hwf.uncrossed pb' hpb' pa' hpa'
        · exact ⟨o, hoidmem, rfl, rfl, rfl, rfl, rfl, rfl⟩
        · rw [akeys_ainsert_of_not_mem _ hfreshk]
        · intro i hi
          simp at hi
  · -- SELL: match against bids, possibly rest on asks
    have hsideS : o.side = OrderSide.SELL := by
      cases hS : o.side with
      | BUY => exact absurd hS hside
      | SELL => rfl
    cases hmk : b.isMarketable o with
    | true =>
      obtain ⟨inc1, m1, bids1, ts, heqL, out⟩ :=
        matchLevels_spec b.symbol b.symbol OrderSide.BUY
          (fun p => decide (o.price ≤ p)) b.bidLevels o b.orders
          hwf.bidsGood hNsides.1 hfreshbid
      have hst : inc1.remainingQuantity ≠ 0 →
          inc1.status ≠ OrderStatus.FILLED ∧ inc1.status ≠ OrderStatus.CANCELLED := by
        intro hne
        by_cases hts : ts = []
        · rw [out.nil_frozen hts, hstatus]
          exact ⟨fun e => OrderStatus.noConfusion e, fun e => OrderStatus.noConfusion e⟩
        · rw [out.status_after hts, if_neg hne]
          exact ⟨fun e => OrderStatus.noConfusion e, fun e => OrderStatus.noConfusion e⟩
      obtain ⟨inc2, hres, hdisj⟩ := handleResidual_spec inc1 hst
      have heqMO : b.matchOrder o = .ok (inc2, { b with orders := m1, bidLevels := bids1 }, ts) := by
        rw [OrderBook.matchOrder, if_neg hside, heqL]
        dsimp only
        rw [hres]
      by_cases hrest2 : 0 < inc2.remainingQuantity ∧ inc2.orderType = OrderType.LIMIT
      · -- the residual rests on the ask side
        have hinc21 : inc2 = inc1 := by
          rcases hdisj with h1 | h1
          · exact h1
          · exfalso
            have : inc1.orderType = OrderType.LIMIT := by
              have := hrest2.2
              rw [h1.1] at this
              exact this
            rcases h1.2 with e | e <;> rw [this] at e <;> exact OrderType.noConfusion e
        subst hinc21
        have hrem1 : 0 < inc2.remainingQuantity := hrest2.1
        have hgoodInc : ∀ mF, alookup inc2.orderId mF = some inc2 →
            GoodResting mF b.symbol OrderSide.SELL inc2.price inc2.orderId := by
          intro mF hl
          refine ⟨inc2, hl, rfl, ?_, ?_, hrest2.2, rfl, hrem1, ?_⟩
          · rw [out.symbol_eq, hsym]
          · rw [out.side_eq, hsideS]
          · by_cases hts : ts = []
            · rw [out.nil_frozen hts, hstatus]
              exact Or.inl rfl
            · rw [out.status_after hts, if_neg (ne_of_gt hrem1)]
              exact Or.inr rfl
        have hb1sorted : (levelPrices ({ b with orders := m1, bidLevels := bids1 } : OrderBook).askLevels).Pairwise (· < ·) :=
          hwf.asksSorted
        obtain ⟨L', heqA, permA, sortedA, headA, goodA⟩ :=
          addToBook_ask_spec { b with orders := m1, bidLevels := bids1 } inc2
            (by rw [out.side_eq]; exact hside) hb1sorted
        have heqAdd : b.addOrder o =
            .ok ({ symbol := b.symbol, bidLevels := bids1, askLevels := L',
                   orders := ainsert o.orderId inc2 m1 }, ts) := by
          rw [OrderBook.addOrder, if_neg (by rw [hsym]; exact fun h => h rfl), hmk,
            if_pos rfl, heqMO]
          dsimp only
          rw [if_pos hrest2, heqA]
        refine ⟨_, ts, heqAdd, ?_⟩
        have hoidmem : alookup o.orderId (ainsert o.orderId inc2 m1) = some inc2 :=
          alookup_ainsert_self _ _ _
        have hcong1 : ∀ id ∈ levelsOrderIds bids1,
            alookup id (ainsert o.orderId inc2 m1) = alookup id m1 := by
          intro id hid
          refine alookup_ainsert_ne _ _ ?_
          intro e
          subst e
          exact hfreshbid (out.ids_sublist.mem hid)
        have hcongAsk : ∀ id ∈ levelsOrderIds b.askLevels,
            alookup id (ainsert o.orderId inc2 m1) = alookup id b.orders := by
          intro id hid
          have h1 : alookup id (ainsert o.orderId inc2 m1) = alookup id m1 :=
            alookup_ainsert_ne _ _ (fun e => by subst e; exact hfreshask hid)
          have h2 : alookup id m1 = alookup id b.orders :=
            out.untouched id (fun hmem => (hNsides.2.2 hmem hid))
          exact h1.trans h2
        have hasksGoodF : SideWf (ainsert o.orderId inc2 m1) b.symbol OrderSide.SELL b.askLevels :=
          hwf.asksGood.lookup_congr hcongAsk
        have hbidsGoodF : SideWf (ainsert o.orderId inc2 m1) b.symbol OrderSide.BUY bids1 :=
          out.survivors.lookup_congr hcong1
        have hasksGoodL' : SideWf (ainsert o.orderId inc2 m1) b.symbol OrderSide.SELL L' :=
          goodA (ainsert o.orderId inc2 m1) b.symbol hasksGoodF
            (hgoodInc (ainsert o.orderId inc2 m1) (by rw [out.id_eq]; exact hoidmem))
        refine
          { wf := ?_, symbol_eq := rfl, final_order := ?_, keys_grow := ?_, aligned := ?_ }
        · refine
            { asksSorted := sortedA, bidsSorted := ?_, asksGood := hasksGoodL'
              bidsGood := hbidsGoodF, idsNodup := ?_, mapKeyed := ?_, uncrossed := ?_ }
          · obtain ⟨n, hn, hpfx⟩ := out.prices_suffix
            rw [hpfx]
            exact hwf.bidsSorted.sublist (List.drop_sublist n _)
          · -- Nodup of (ids bids1 ++ ids L')
            show ((levelsOrderIds bids1) ++ (levelsOrderIds L')).Nodup
            have hperm : ((levelsOrderIds bids1) ++ (levelsOrderIds L')).Perm
                ((levelsOrderIds bids1) ++ (inc2.orderId :: levelsOrderIds b.askLevels)) :=
              List.Perm.append_left _ permA
            refine hperm.nodup_iff.mpr ?_
            rw [List.nodup_middle]
            refine List.nodup_cons.mpr ⟨?_, ?_⟩
            · rw [out.id_eq]
              intro hm
              rcases List.mem_append.mp hm with h1 | h1
              · exact hfreshbid (out.ids_sublist.mem h1)
              · exact hfreshask h1
            · refine List.Nodup.sublist ?_ hwf.idsNodup
              exact out.ids_sublist.append (List.Sublist.refl _)
          · exact ainsert_keyed (out.keyed hwf.mapKeyed) out.id_eq
          · -- uncrossed
            intro pb' hpb' pa' hpa'
            rw [getBestBid_eq_head (hbidsGoodF.nonempty_levels)] at hpb'
            rw [getBestAsk_eq_head (hasksGoodL'.nonempty_levels)] at hpa'
            obtain ⟨n, hn, hpfx⟩ := out.prices_suffix
            have hpbmem : pb' ∈ (levelPrices b.bidLevels).drop n := by
              rw [← hpfx]
              exact List.mem_of_mem_head? hpb'
            have hpb'le : ∀ hd ∈ (levelPrices b.bidLevels).head?, pb' ≤ hd :=
              sorted_head_ge_of_mem_drop hwf.bidsSorted hpbmem
            rcases headA pa' hpa' with hcase | hcase
            · -- best ask is the freshly rested order's price
              subst hcase
              rw [out.price_eq]
              rcases out.stop_reason hrem1 with hempty | ⟨-, lv, rest2, hsh, hcmp⟩
              · rw [hempty] at hpb'
                simp [levelPrices] at hpb'
              · rw [hsh, levelPrices_cons, List.head?_cons, Option.mem_def,
                  Option.some.injEq] at hpb'
                subst hpb'
                have hle : ¬ (o.price ≤ lv.price) := by simpa using hcmp
                exact not_le.mp hle
            · -- best ask is the old best ask
              have hask : pa' ∈ b.getBestAsk := by
                rw [getBestAsk_eq_head (hwf.asksGood.nonempty_levels)]
                exact hcase
              have hbidsne : b.bidLevels ≠ [] := by
                intro he
                rw [he] at hpbmem
                simp [levelPrices] at hpbmem
              obtain ⟨lv0, ls0, hls0⟩ := List.exists_cons_of_ne_nil hbidsne
              have hbid : lv0.price ∈ b.getBestBid := by
                rw [getBestBid_eq_head (hwf.bidsGood.nonempty_levels), hls0]
                rfl
              have h1 : lv0.price < pa' := hwf.uncrossed lv0.price hbid pa' hask
              have h2 : pb' ≤ lv0.price := by
                refine hpb'le lv0.price ?_
                rw [hls0]
                rfl
              exact lt_of_le_of_lt h2 h1
        · refine ⟨inc2, hoidmem, out.id_eq, ?_, ?_, ?_, ?_, out.quantity_eq⟩
          · rw [out.symbol_eq]
          · rw [out.side_eq]
          · rw [out.type_eq]
          · exact out.price_eq
        · rw [akeys_ainsert_of_not_mem _ (by rw [out.keys_eq]; exact hfreshk), out.keys_eq]
        · intro i hi
          rw [oppositeRestingIds, if_neg hside]
          exact out.aligned i hi
      · -- the residual does not rest
        have heqAdd : b.addOrder o =
            .ok ({ symbol := b.symbol, bidLevels := bids1, askLevels := b.askLevels,
                   orders := ainsert o.orderId inc2 m1 }, ts) := by
          rw [OrderBook.addOrder, if_neg (by rw [hsym]; exact fun h => h rfl), hmk,
            if_pos rfl, heqMO]
          dsimp only
          rw [if_neg hrest2]
        refine ⟨_, ts, heqAdd, ?_⟩
        have hprj : inc2.orderId = inc1.orderId ∧ inc2.symbol = inc1.symbol ∧
            inc2.side = inc1.side ∧ inc2.orderType = inc1.orderType ∧
            inc2.price = inc1.price ∧ inc2.quantity = inc1.quantity := by
          rcases hdisj with rfl | ⟨h1, -⟩
          · exact ⟨rfl, rfl, rfl, rfl, rfl, rfl⟩
          · rw [h1]
            exact ⟨rfl, rfl, rfl, rfl, rfl, rfl⟩
        have hideq : inc2.orderId = o.orderId := hprj.1.trans out.id_eq
        have hoidmem : alookup o.orderId (ainsert o.orderId inc2 m1) = some inc2 :=
          alookup_ainsert_self _ _ _
        have hcong1 : ∀ id ∈ levelsOrderIds bids1,
            alookup id (ainsert o.orderId inc2 m1) = alookup id m1 := by
          intro id hid
          refine alookup_ainsert_ne _ _ ?_
          intro e
          subst e
          exact hfreshbid (out.ids_sublist.mem hid)
        have hcongAsk : ∀ id ∈ levelsOrderIds b.askLevels,
            alookup id (ainsert o.orderId inc2 m1) = alookup id b.orders := by
          intro id hid
          have h1 : alookup id (ainsert o.orderId inc2 m1) = alookup id m1 :=
            alookup_ainsert_ne _ _ (fun e => by subst e; exact hfreshask hid)
          exact h1.trans (out.untouched id (fun hmem => (hNsides.2.2 hmem hid)))
        have hbidsGoodF : SideWf (ainsert o.orderId inc2 m1) b.symbol OrderSide.BUY bids1 :=
          out.survivors.lookup_congr hcong1
        have hasksGoodF : SideWf (ainsert o.orderId inc2 m1) b.symbol OrderSide.SELL
            b.askLevels := hwf.asksGood.lookup_congr hcongAsk
        refine
          { wf := ?_, symbol_eq := rfl, final_order := ?_, keys_grow := ?_, aligned := ?_ }
        · refine
            { asksSorted := hwf.asksSorted, bidsSorted := ?_, asksGood := hasksGoodF
              bidsGood := hbidsGoodF, idsNodup := ?_, mapKeyed := ?_, uncrossed := ?_ }
          · obtain ⟨n, hn, hpfx⟩ := out.prices_suffix
            rw [hpfx]
            exact hwf.bidsSorted.sublist (List.drop_sublist n _)
          · show ((levelsOrderIds bids1) ++ (levelsOrderIds b.askLevels)).Nodup
            refine List.Nodup.sublist ?_ hwf.idsNodup
            exact out.ids_sublist.append (List.Sublist.refl _)
          · exact ainsert_keyed (out.keyed hwf.mapKeyed) hideq
          · intro pb' hpb' pa' hpa'
            have hask : pa' ∈ b.getBestAsk := hpa'
            have hpb2 : pb' ∈ (levelPrices bids1).head? := by
              rw [← firstPrice_eq_head (hbidsGoodF.nonempty_levels)]
              exact hpb'
            obtain ⟨n, hn, hpfx⟩ := out.prices_suffix
            have hpbmem : pb' ∈ (levelPrices b.bidLevels).drop n := by
              rw [← hpfx]
              exact List.mem_of_mem_head? hpb2
            have hpb'le : ∀ hd ∈ (levelPrices b.bidLevels).head?, pb' ≤ hd :=
              sorted_head_ge_of_mem_drop hwf.bidsSorted hpbmem
            have hbidsne : b.bidLevels ≠ [] := by
              intro he
              rw [he] at hpbmem
              simp [levelPrices] at hpbmem
            obtain ⟨lv0, ls0, hls0⟩ := List.exists_cons_of_ne_nil hbidsne
            have hbid : lv0.price ∈ b.getBestBid := by
              rw [getBestBid_eq_head (hwf.bidsGood.nonempty_levels), hls0]
              rfl
            have h1 : lv0.price < pa' := hwf.uncrossed lv0.price hbid pa' hask
            have h2 : pb' ≤ lv0.price := by
              refine hpb'le lv0.price ?_
              rw [hls0]
              rfl
            exact lt_of_le_of_lt h2 h1
        · refine ⟨inc2, hoidmem, hideq, ?_, ?_, ?_, ?_, ?_⟩
          · rw [hprj.2.1, out.symbol_eq]
          · rw [hprj.2.2.1, out.side_eq]
          · rw [hprj.2.2.2.1, out.type_eq]
          · rw [hprj.2.2.2.2.1, out.price_eq]
          · rw [hprj.2.2.2.2.2, out.quantity_eq]
        · rw [akeys_ainsert_of_not_mem _ (by rw [out.keys_eq]; exact hfreshk), out.keys_eq]
        · intro i hi
          rw [oppositeRestingIds, if_neg hside]
          exact out.aligned i hi
    | false =>
      have hnm := not_marketable_sell hside hmk
      by_cases hrest2 : 0 < o.remainingQuantity ∧ o.orderType = OrderType.LIMIT
      · obtain ⟨L', heqA, permA, sortedA, headA, goodA⟩ :=
          addToBook_ask_spec b o hside hwf.asksSorted
        have heqAdd : b.addOrder o =
            .ok ({ symbol := b.symbol, bidLevels := b.bidLevels, askLevels := L',
                   orders := ainsert o.orderId o b.orders }, []) := by
          rw [OrderBook.addOrder, if_neg (by rw [hsym]; exact fun h => h rfl), hmk]
          rw [if_neg (by simp : ¬ (false = true))]
          dsimp only
          rw [if_pos hrest2, heqA]
        refine ⟨_, [], heqAdd, ?_⟩
        have hoidmem : alookup o.orderId (ainsert o.orderId o b.orders) = some o :=
          alookup_ainsert_self _ _ _
        have hcongAsk : ∀ id ∈ levelsOrderIds b.askLevels,
            alookup id (ainsert o.orderId o b.orders) = alookup id b.orders :=
          fun id hid => alookup_ainsert_ne _ _ (fun e => by subst e; exact hfreshask hid)
        have hcongBid : ∀ id ∈ levelsOrderIds b.bidLevels,
            alookup id (ainsert o.orderId o b.orders) = alookup id b.orders :=
          fun id hid => alookup_ainsert_ne _ _ (fun e => by subst e; exact hfreshbid hid)
        have hasksGoodF : SideWf (ainsert o.orderId o b.orders) b.symbol OrderSide.SELL
            b.askLevels := hwf.asksGood.lookup_congr hcongAsk
        have hbidsGoodF : SideWf (ainsert o.orderId o b.orders) b.symbol OrderSide.BUY
            b.bidLevels := hwf.bidsGood.lookup_congr hcongBid
        have hasksGoodL' : SideWf (ainsert o.orderId o b.orders) b.symbol OrderSide.SELL L' :=
          goodA _ _ hasksGoodF
            ⟨o, hoidmem, rfl, hsym, hsideS, hrest2.2, rfl, hrem, Or.inl hstatus⟩
        refine
          { wf := ?_, symbol_eq := rfl, final_order := ?_, keys_grow := ?_, aligned := ?_ }
        · refine
            { asksSorted := sortedA, bidsSorted := hwf.bidsSorted, asksGood := hasksGoodL'
              bidsGood := hbidsGoodF, idsNodup := ?_, mapKeyed := ?_, uncrossed := ?_ }
          · show ((levelsOrderIds b.bidLevels) ++ (levelsOrderIds L')).Nodup
            refine (List.Perm.append_left _ permA).nodup_iff.mpr ?_
            rw [List.nodup_middle]
            refine List.nodup_cons.mpr ⟨?_, hwf.idsNodup⟩
            intro hm
            rcases List.mem_append.mp hm with h1 | h1
            · exact hfreshbid h1
            · exact hfreshask h1
          · exact ainsert_keyed hwf.mapKeyed rfl
          · intro pb' hpb' pa' hpa'
            have hbid : pb' ∈ b.getBestBid := hpb'
            have hpa2 : pa' ∈ (levelPrices L').head? := by
              rw [← firstPrice_eq_head (hasksGoodL'.nonempty_levels)]
              exact hpa'
            rcases headA pa' hpa2 with hcase | hcase
            · subst hcase
              exact hnm.2 pb' hbid
            · have hask : pa' ∈ b.getBestAsk := by
                rw [getBestAsk_eq_head (hwf.asksGood.nonempty_levels)]
                exact hcase
              exact hwf.uncrossed pb' hbid pa' hask
        · exact ⟨o, hoidmem, rfl, rfl, rfl, rfl, rfl, rfl⟩
        · rw [akeys_ainsert_of_not_mem _ hfreshk]
        · intro i hi
          simp at hi
      · have heqAdd : b.addOrder o =
            .ok ({ symbol := b.symbol, bidLevels := b.bidLevels, askLevels := b.askLevels,
                   orders := ainsert o.orderId o b.orders }, []) := by
          rw [OrderBook.addOrder, if_neg (by rw [hsym]; exact fun h => h rfl), hmk]
          rw [if_neg (by simp : ¬ (false = true))]
          dsimp only
          rw [if_neg hrest2]
        refine ⟨_, [], heqAdd, ?_⟩
        have hoidmem : alookup o.orderId (ainsert o.orderId o b.orders) = some o :=
          alookup_ainsert_self _ _ _
        have hcongAsk : ∀ id ∈ levelsOrderIds b.askLevels,
            alookup id (ainsert o.orderId o b.orders) = alookup id b.orders :=
          fun id hid => alookup_ainsert_ne _ _ (fun e => by subst e; exact hfreshask hid)
        have hcongBid : ∀ id ∈ levelsOrderIds b.bidLevels,
            alookup id (ainsert o.orderId o b.orders) = alookup id b.orders :=
          fun id hid => alookup_ainsert_ne _ _ (fun e => by subst e; exact hfreshbid hid)
        have hasksGoodF : SideWf (ainsert o.orderId o b.orders) b.symbol OrderSide.SELL
            b.askLevels := hwf.asksGood.lookup_congr hcongAsk
        have hbidsGoodF : SideWf (ainsert o.orderId o b.orders) b.symbol OrderSide.BUY
            b.bidLevels := hwf.bidsGood.lookup_congr hcongBid
        refine
          { wf := ?_, symbol_eq := rfl, final_order := ?_, keys_grow := ?_, aligned := ?_ }
        · refine
            { asksSorted := hwf.asksSorted, bidsSorted := hwf.bidsSorted
              asksGood := hasksGoodF, bidsGood := hbidsGoodF
              idsNodup := hwf.idsNodup, mapKeyed := ainsert_keyed hwf.mapKeyed rfl
              uncrossed := ?_ }
          · intro pb' hpb' pa' hpa'
            exact hwf.uncrossed pb' hpb' pa' hpa'
        · exact ⟨o, hoidmem, rfl, rfl, rfl, rfl, rfl, rfl⟩
        · rw [akeys_ainsert_of_not_mem _ hfreshk]
        · intro i hi
          simp at hi

/-! ### Cancellation preserves well-formedness -/

theorem alookup_mem {α : Type} {k : String} {v : α} :
    ∀ {m : List (String × α)}, alookup k m = some v → (k, v) ∈ m
  | [], h => by simp [alookup] at h
  | kv :: rest, h => by
    rw [alookup] at h
    by_cases hk : kv.1 = k
    · rw [if_pos hk] at h
      injection h with h1
      subst hk h1
      exact List.mem_cons_self _ _
    · rw [if_neg hk] at h
      exact List.mem_cons_of_mem _ (alookup_mem h)

theorem mem_levelsOrderIds_of_mem {lv : PriceLevel} {L : List PriceLevel} {id : String}
    (h1 : lv ∈ L) (h2 : id ∈ lv.orderIds) : id ∈ levelsOrderIds L := by
  rw [levelsOrderIds]
  exact List.mem_flatten.mpr ⟨lv.orderIds, List.mem_map_of_mem _ h1, h2⟩

theorem levelPrices_map_congr {L : List PriceLevel} {f : PriceLevel → PriceLevel}
    (h : ∀ l ∈ L, (f l).price = l.price) : levelPrices (L.map f) = levelPrices L := by
  rw [levelPrices, levelPrices, List.map_map]
  exact List.map_congr_left (fun l hl => h l hl)

theorem levelsOrderIds_filter_of_empty {pred : PriceLevel → Bool} :
    ∀ {M : List PriceLevel}, (∀ l ∈ M, pred l = false → l.orderIds = []) →
      levelsOrderIds (M.filter pred) = levelsOrderIds M
  | [], _ => rfl
  | l :: ls, h => by
    have ih := levelsOrderIds_filter_of_empty (fun l2 hl2 => h l2 (List.mem_cons_of_mem _ hl2))
    cases hp : pred l with
    | true =>
      rw [List.filter_cons_of_pos hp, levelsOrderIds_cons, levelsOrderIds_cons, ih]
    | false =>
      rw [List.filter_cons_of_neg (by rw [hp]; exact Bool.false_ne_true), levelsOrderIds_cons,
        h l (List.mem_cons_self _ _) hp, List.nil_append, ih]

theorem map_replace_id_of_no_match (lv' : PriceLevel) (p : Price) (L : List PriceLevel)
    (h : ∀ l ∈ L, l.price ≠ p) :
    L.map (fun l => if l.price = p then lv' else l) = L := by
  rw [List.map_congr_left (fun l hl => if_neg (h l hl))]
  exact List.map_id L

theorem replace_erase_ids_perm (oid : String) (lv' : PriceLevel) (p : Price) :
    ∀ L : List PriceLevel, (levelPrices L).Nodup →
      ∀ lv ∈ L, lv.price = p → oid ∈ lv.orderIds → lv'.orderIds = lv.orderIds.erase oid →
      (levelsOrderIds L).Perm
        (oid :: levelsOrderIds (L.map (fun l => if l.price = p then lv' else l)))
  | [], _, lv, hlv, _, _, _ => absurd hlv (List.not_mem_nil _)
  | l :: ls, hnd, lv, hlv, hlvp, hmem, herase => by
    rw [levelPrices_cons] at hnd
    have hnd' := List.nodup_cons.mp hnd
    by_cases h : l.price = p
    · have hlveq : lv = l := by
        rcases List.mem_cons.mp hlv with rfl | h2
        · rfl
        · exfalso
          apply hnd'.1
          rw [h, ← hlvp]
          exact List.mem_map_of_mem _ h2
      subst hlveq
      have hnomatch : ∀ l2 ∈ ls, l2.price ≠ p := by
        intro l2 hl2 e
        apply hnd'.1
        rw [h, ← e]
        exact List.mem_map_of_mem _ hl2
      rw [List.map_cons, if_pos h, map_replace_id_of_no_match lv' p ls hnomatch,
        levelsOrderIds_cons, levelsOrderIds_cons, herase]
      show (lv.orderIds ++ levelsOrderIds ls).Perm
        (oid :: (lv.orderIds.erase oid ++ levelsOrderIds ls))
      exact ((List.perm_cons_erase hmem).append_right _).trans (by rw [List.cons_append])
    · have hlv' : lv ∈ ls := by
        rcases List.mem_cons.mp hlv with rfl | h2
        · exact absurd hlvp h
        · exact h2
      have ih := replace_erase_ids_perm oid lv' p ls hnd'.2 lv hlv' hlvp hmem herase
      rw [List.map_cons, if_neg h, levelsOrderIds_cons, levelsOrderIds_cons]
      exact (ih.append_left l.orderIds).trans List.perm_middle


theorem removeOrderFromLevels_false (o : Order) (L L' : List PriceLevel)
    (hP : (levelPrices L).Nodup) (hne : ∀ l ∈ L, l.orderIds ≠ [])
    (h : removeOrderFromLevels o L = (L', false)) : L' = L := by
  unfold removeOrderFromLevels at h
  cases hfind : L.find? (fun lv => decide (lv.price = o.price)) with
  | none =>
    rw [hfind] at h
    injection h with h1 h2
    exact h1.symm
  | some lv =>
    rw [hfind] at h
    have hlvmem := List.mem_of_find?_eq_some hfind
    have hlvp : lv.price = o.price := by simpa using List.find?_some hfind
    dsimp only at h
    cases hc : lv.orderIds.contains o.orderId with
    | true =>
      have hrm : lv.removeOrder o =
          (({ lv with
                orderIds := lv.orderIds.erase o.orderId
                totalQuantity := lv.totalQuantity - o.remainingQuantity } : PriceLevel), true) := by
        rw [PriceLevel.removeOrder, if_pos hc]
      rw [hrm] at h
      dsimp only at h
      split at h <;> · injection h with h1 h2; exact absurd h2 (by decide)
    | false =>
      have hrm : lv.removeOrder o = (lv, false) := by
        rw [PriceLevel.removeOrder, if_neg (show ¬ lv.orderIds.contains o.orderId = true by
          rw [hc]; decide)]
      rw [hrm] at h
      dsimp only at h
      have hlvne : lv.orderIds.isEmpty = false :=
        List.isEmpty_eq_false_iff_exists_mem.mpr
          (List.exists_mem_of_ne_nil _ (hne lv hlvmem))
      rw [hlvne, if_neg (show ¬ (false = true) by decide)] at h
      have hmapid : L.map (fun l => if l.price = o.price then lv else l) = L := by
        refine (List.map_congr_left ?_).trans (List.map_id L)
        intro l hl
        by_cases hpp : l.price = o.price
        · rw [if_pos hpp]
          exact List.inj_on_of_nodup_map hP hlvmem hl (hlvp.trans hpp.symm)
        · rw [if_neg hpp]
          exact rfl
      rw [hmapid] at h
      injection h with h1 h2
      exact h1.symm

theorem removeOrderFromLevels_true (o : Order) (L L' : List PriceLevel)
    (hP : (levelPrices L).Nodup) (hne : ∀ l ∈ L, l.orderIds ≠ [])
    (h : removeOrderFromLevels o L = (L', true)) :
    (levelsOrderIds L).Perm (o.orderId :: levelsOrderIds L') ∧
    ((levelPrices L').Sublist (levelPrices L)) ∧
    (∀ l2 ∈ L', l2.orderIds ≠ [] ∧ ∃ l0 ∈ L, l0.price = l2.price ∧ l2.orderIds ⊆ l0.orderIds) := by
  unfold removeOrderFromLevels at h
  cases hfind : L.find? (fun lv => decide (lv.price = o.price)) with
  | none =>
    rw [hfind] at h
    injection h with h1 h2
    exact absurd h2 (by decide)
  | some lv =>
    rw [hfind] at h
    have hlvmem := List.mem_of_find?_eq_some hfind
    have hlvp : lv.price = o.price := by simpa using List.find?_some hfind
    dsimp only at h
    cases hc : lv.orderIds.contains o.orderId with
    | false =>
      have hrm : lv.removeOrder o = (lv, false) := by
        rw [PriceLevel.removeOrder, if_neg (show ¬ lv.orderIds.contains o.orderId = true by
          rw [hc]; decide)]
      rw [hrm] at h
      dsimp only at h
      split at h <;> · injection h with h1 h2; exact absurd h2 (by decide)
    | true =>
      have hcmem : o.orderId ∈ lv.orderIds := by
        simpa using hc
      have hrm : lv.removeOrder o =
          (({ lv with
                orderIds := lv.orderIds.erase o.orderId
                totalQuantity := lv.totalQuantity - o.remainingQuantity } : PriceLevel), true) := by
        rw [PriceLevel.removeOrder, if_pos hc]
      rw [hrm] at h
      dsimp only at h
      have hperm := replace_erase_ids_perm o.orderId
        { lv with orderIds := lv.orderIds.erase o.orderId,
                  totalQuantity := lv.totalQuantity - o.remainingQuantity }
        o.price L hP lv hlvmem hlvp hcmem rfl
      have hprices : levelPrices (L.map (fun l => if l.price = o.price then
          { lv with orderIds := lv.orderIds.erase o.orderId,
                    totalQuantity := lv.totalQuantity - o.remainingQuantity } else l)) =
          levelPrices L := by
        refine levelPrices_map_congr ?_
        intro l hl
        by_cases hpp : l.price = o.price
        · rw [if_pos hpp]
          exact hlvp.trans hpp.symm
        · rw [if_neg hpp]
      have hmemmap : ∀ l2 ∈ L.map (fun l => if l.price = o.price then
          { lv with orderIds := lv.orderIds.erase o.orderId,
                    totalQuantity := lv.totalQuantity - o.remainingQuantity } else l),
          (l2.price ≠ o.price → l2 ∈ L) ∧
          (l2.price = o.price →
            l2 = { lv with orderIds := lv.orderIds.erase o.orderId,
                           totalQuantity := lv.totalQuantity - o.remainingQuantity }) := by
        intro l2 hl2
        obtain ⟨l0, hl0, heq0⟩ := List.mem_map.mp hl2
        by_cases hpp : l0.price = o.price
        · rw [if_pos hpp] at heq0
          subst heq0
          exact ⟨fun hne2 => absurd hlvp hne2, fun _ => rfl⟩
        · rw [if_neg hpp] at heq0
          subst heq0
          exact ⟨fun _ => hl0, fun he => absurd he hpp⟩
      have hsurv : ∀ l2 ∈ L.map (fun l => if l.price = o.price then
          { lv with orderIds := lv.orderIds.erase o.orderId,
                    totalQuantity := lv.totalQuantity - o.remainingQuantity } else l),
          ∃ l0 ∈ L, l0.price = l2.price ∧ l2.orderIds ⊆ l0.orderIds := by
        intro l2 hl2
        obtain ⟨l0, hl0, heq0⟩ := List.mem_map.mp hl2
        by_cases hpp : l0.price = o.price
        · rw [if_pos hpp] at heq0
          subst heq0
          exact ⟨lv, hlvmem, rfl, (List.erase_sublist _ _).subset⟩
        · rw [if_neg hpp] at heq0
          subst heq0
          exact ⟨l0, hl0, rfl, fun x hx => hx⟩
      cases hEmp : (lv.orderIds.erase o.orderId).isEmpty with
      | true =>
        rw [hEmp, if_pos rfl] at h
        injection h with h1 h2
        subst h1
        have hempids : lv.orderIds.erase o.orderId = [] := List.isEmpty_iff.mp hEmp
        have hidseq : levelsOrderIds (List.filter (fun l => decide (l.price ≠ o.price))
            (L.map (fun l => if l.price = o.price then
              { lv with orderIds := lv.orderIds.erase o.orderId,
                        totalQuantity := lv.totalQuantity - o.remainingQuantity } else l))) =
            levelsOrderIds (L.map (fun l => if l.price = o.price then
              { lv with orderIds := lv.orderIds.erase o.orderId,
                        totalQuantity := lv.totalQuantity - o.remainingQuantity } else l)) := by
          refine levelsOrderIds_filter_of_empty ?_
          intro l2 hl2 hpred
          have hpp : l2.price = o.price := not_not.mp (of_decide_eq_false hpred)
          rw [(hmemmap l2 hl2).2 hpp]
          exact hempids
        refine ⟨?_, ?_, ?_⟩
        · rw [hidseq]
          exact hperm
        · rw [← hprices]
          exact List.Sublist.map _ (List.filter_sublist _)
        · intro l2 hl2
          have hl2' := List.mem_of_mem_filter hl2
          have hpred : l2.price ≠ o.price := by
            have hmf := List.of_mem_filter hl2
            simpa using hmf
          exact ⟨hne l2 ((hmemmap l2 hl2').1 hpred), hsurv l2 hl2'⟩
      | false =>
        rw [hEmp, if_neg (show ¬ (false = true) by decide)] at h
        injection h with h1 h2
        subst h1
        refine ⟨hperm, ?_, ?_⟩
        · rw [hprices]
        · intro l2 hl2
          refine ⟨?_, hsurv l2 hl2⟩
          rcases (List.mem_map.mp hl2) with ⟨l0, hl0, heq0⟩
          by_cases hpp : l0.price = o.price
          · rw [if_pos hpp] at heq0
            subst heq0
            intro he
            have he2 : lv.orderIds.erase o.orderId = [] := he
            rw [he2] at hEmp
            simp at hEmp
          · rw [if_neg hpp] at heq0
            subst heq0
            exact hne l0 hl0

theorem exists_level_of_mem_levelsOrderIds {L : List PriceLevel} {id : String}
    (h : id ∈ levelsOrderIds L) : ∃ lv ∈ L, id ∈ lv.orderIds := by
  rw [levelsOrderIds] at h
  obtain ⟨ids0, hids0, hmem0⟩ := List.mem_flatten.mp h
  obtain ⟨lv, hlv, rfl⟩ := List.mem_map.mp hids0
  exact ⟨lv, hlv, hmem0⟩

/-- `OrderBook.cancel_order` preserves well-formedness, the symbol, and the
id-map key set (no key is ever pruned, the cancelled entry is overwritten
in place). -/
theorem cancelOrder_wf {b : OrderBook} {id : String} {b' : OrderBook} {r : Bool}
    (hwf : BookWf b) (h : b.cancelOrder id = .ok (b', r)) :
    BookWf b' ∧ b'.symbol = b.symbol ∧ akeys b'.orders = akeys b.orders := by
  unfold OrderBook.cancelOrder at h
  cases hlook : alookup id b.orders with
  | none =>
    rw [hlook] at h
    injection h with h1
    injection h1 with hb hr
    subst hb
    exact ⟨hwf, rfl, rfl⟩
  | some order =>
    rw [hlook] at h
    dsimp only at h
    have hoid : order.orderId = id := hwf.mapKeyed (id, order) (alookup_mem hlook)
    have hN : ((levelsOrderIds b.bidLevels) ++ (levelsOrderIds b.askLevels)).Nodup :=
      hwf.idsNodup
    have hNsplit := List.nodup_append.mp hN
    unfold OrderBook.removeFromBook at h
    by_cases hside : order.side = OrderSide.BUY
    · rw [if_pos hside] at h
      cases hrm : removeOrderFromLevels order b.bidLevels with
      | mk L2 rm =>
      rw [hrm] at h
      dsimp only at h
      cases rm with
      | false =>
        rw [if_neg (show ¬ (false = true) by decide)] at h
        injection h with h1
        injection h1 with hb hr
        have hL2 : L2 = b.bidLevels :=
          removeOrderFromLevels_false order b.bidLevels L2
            (nodup_prices_of_sorted_gt hwf.bidsSorted) hwf.bidsGood.nonempty_levels hrm
        subst hL2
        subst hb
        exact ⟨hwf, rfl, rfl⟩
      | true =>
        obtain ⟨hperm, hprsub, hgood⟩ :=
          removeOrderFromLevels_true order b.bidLevels L2
            (nodup_prices_of_sorted_gt hwf.bidsSorted) hwf.bidsGood.nonempty_levels hrm
        rw [if_pos rfl] at h
        have hidmem : order.orderId ∈ levelsOrderIds b.bidLevels :=
          hperm.mem_iff.mpr (List.mem_cons_self _ _)
        obtain ⟨lv0, hlv0, hmem0⟩ := exists_level_of_mem_levelsOrderIds hidmem
        obtain ⟨o2, hlook2, -, -, -, -, -, -, hstat2⟩ :=
          (hwf.bidsGood lv0 hlv0).2 order.orderId hmem0
        rw [hoid, hlook] at hlook2
        injection hlook2 with ho2
        subst ho2
        have hstat : ¬ (order.status = OrderStatus.FILLED ∨
            order.status = OrderStatus.CANCELLED) := by
          rcases hstat2 with h1 | h1 <;> rw [h1] <;> rintro (e | e) <;>
            exact OrderStatus.noConfusion e
        rw [Order.cancel, if_neg hstat] at h
        dsimp only at h
        injection h with h1
        injection h1 with hb hr
        subst hb
        have hL2Nodup : (order.orderId :: levelsOrderIds L2).Nodup :=
          hperm.nodup_iff.mp hNsplit.1
        have hnotinL2 : order.orderId ∉ levelsOrderIds L2 := (List.nodup_cons.mp hL2Nodup).1
        have hnotasks : order.orderId ∉ levelsOrderIds b.askLevels :=
          fun hm => hNsplit.2.2 hidmem hm
        have hcong : ∀ id2, id2 ≠ id →
            alookup id2 (ainsert id { order with status := OrderStatus.CANCELLED } b.orders) =
              alookup id2 b.orders :=
          fun id2 hne2 => alookup_ainsert_ne _ _ (fun e => hne2 e.symm)
        have hneL2 : ∀ lv2 ∈ L2, lv2.orderIds ≠ [] := fun lv2 hlv2 => (hgood lv2 hlv2).1
        have hgoodL2 : SideWf (ainsert id { order with status := OrderStatus.CANCELLED } b.orders)
            b.symbol OrderSide.BUY L2 := by
          intro lv2 hlv2
          obtain ⟨hne2, l0, hl0, hp0, hsub⟩ := hgood lv2 hlv2
          refine ⟨hne2, ?_⟩
          intro id2 hid2
          have hid2L2 : id2 ∈ levelsOrderIds L2 := mem_levelsOrderIds_of_mem hlv2 hid2
          have hne3 : id2 ≠ id := by
            intro e
            apply hnotinL2
            rw [hoid, ← e]
            exact hid2L2
          obtain ⟨o3, hl3, h3a, h3b, h3c, h3d, h3e, h3f, h3g⟩ :=
            (hwf.bidsGood l0 hl0).2 id2 (hsub hid2)
          refine ⟨o3, ?_, h3a, h3b, h3c, h3d, ?_, h3f, h3g⟩
          · rw [hcong id2 hne3]
            exact hl3
          · rw [← hp0]
            exact h3e
        have hgoodAsks : SideWf (ainsert id { order with status := OrderStatus.CANCELLED } b.orders)
            b.symbol OrderSide.SELL b.askLevels := by
          refine hwf.asksGood.lookup_congr ?_
          intro id2 hid2
          refine hcong id2 ?_
          intro e
          subst e
          exact hnotasks (by rw [hoid]; exact hid2)
        refine ⟨?_, rfl, ?_⟩
        · refine
            { asksSorted := hwf.asksSorted, bidsSorted := hwf.bidsSorted.sublist hprsub
              asksGood := hgoodAsks, bidsGood := hgoodL2, idsNodup := ?_, mapKeyed := ?_
              uncrossed := ?_ }
          · show ((levelsOrderIds L2) ++ (levelsOrderIds b.askLevels)).Nodup
            have hp2 : ((levelsOrderIds b.bidLevels) ++ levelsOrderIds b.askLevels).Perm
                ((order.orderId :: levelsOrderIds L2) ++ levelsOrderIds b.askLevels) :=
              hperm.append_right _
            have hn2 := hp2.nodup_iff.mp hN
            rw [List.cons_append] at hn2
            exact (List.nodup_cons.mp hn2).2
          · exact ainsert_keyed hwf.mapKeyed hoid
          · intro pb' hpb' pa' hpa'
            have hask : pa' ∈ b.getBestAsk := hpa'
            have hpb2 : pb' ∈ (levelPrices L2).head? := by
              rw [← firstPrice_eq_head hneL2]
              exact hpb'
            have hpbmem : pb' ∈ levelPrices b.bidLevels :=
              hprsub.subset (List.mem_of_mem_head? hpb2)
            have hpb'le : ∀ hd ∈ (levelPrices b.bidLevels).head?, pb' ≤ hd :=
              sorted_head_ge_of_mem_drop hwf.bidsSorted
                (by rw [List.drop_zero]; exact hpbmem)
            have hbidsne : b.bidLevels ≠ [] := by
              intro he
              rw [he] at hpbmem
              simp [levelPrices] at hpbmem
            obtain ⟨lv1, ls1, hls1⟩ := List.exists_cons_of_ne_nil hbidsne
            have hbid : lv1.price ∈ b.getBestBid := by
              rw [getBestBid_eq_head hwf.bidsGood.nonempty_levels, hls1]
              rfl
            have h1 : lv1.price < pa' := hwf.uncrossed lv1.price hbid pa' hask
            have h2 : pb' ≤ lv1.price := by
              refine hpb'le lv1.price ?_
              rw [hls1]
              rfl
            exact lt_of_le_of_lt h2 h1
        · exact akeys_ainsert_of_mem _ (mem_akeys_of_alookup hlook)
    · rw [if_neg hside] at h
      cases hrm : removeOrderFromLevels order b.askLevels with
      | mk L2 rm =>
      rw [hrm] at h
      dsimp only at h
      cases rm with
      | false =>
        rw [if_neg (show ¬ (false = true) by decide)] at h
        injection h with h1
        injection h1 with hb hr
        have hL2 : L2 = b.askLevels :=
          removeOrderFromLevels_false order b.askLevels L2
            (nodup_prices_of_sorted_lt hwf.asksSorted) hwf.asksGood.nonempty_levels hrm
        subst hL2
        subst hb
        exact ⟨hwf, rfl, rfl⟩
      | true =>
        obtain ⟨hperm, hprsub, hgood⟩ :=
          removeOrderFromLevels_true order b.askLevels L2
            (nodup_prices_of_sorted_lt hwf.asksSorted) hwf.asksGood.nonempty_levels hrm
        rw [if_pos rfl] at h
        have hidmem : order.orderId ∈ levelsOrderIds b.askLevels :=
          hperm.mem_iff.mpr (List.mem_cons_self _ _)
        obtain ⟨lv0, hlv0, hmem0⟩ := exists_level_of_mem_levelsOrderIds hidmem
        obtain ⟨o2, hlook2, -, -, -, -, -, -, hstat2⟩ :=
          (hwf.asksGood lv0 hlv0).2 order.orderId hmem0
        rw [hoid, hlook] at hlook2
        injection hlook2 with ho2
        subst ho2
        have hstat : ¬ (order.status = OrderStatus.FILLED ∨
            order.status = OrderStatus.CANCELLED) := by
          rcases hstat2 with h1 | h1 <;> rw [h1] <;> rintro (e | e) <;>
            exact OrderStatus.noConfusion e
        rw [Order.cancel, if_neg hstat] at h
        dsimp only at h
        injection h with h1
        injection h1 with hb hr
        subst hb
        have hL2Nodup : (order.orderId :: levelsOrderIds L2).Nodup :=
          hperm.nodup_iff.mp hNsplit.2.1
        have hnotinL2 : order.orderId ∉ levelsOrderIds L2 := (List.nodup_cons.mp hL2Nodup).1
        have hnotbids : order.orderId ∉ levelsOrderIds b.bidLevels :=
          fun hm => hNsplit.2.2 hm hidmem
        have hcong : ∀ id2, id2 ≠ id →
            alookup id2 (ainsert id { order with status := OrderStatus.CANCELLED } b.orders) =
              alookup id2 b.orders :=
          fun id2 hne2 => alookup_ainsert_ne _ _ (fun e => hne2 e.symm)
        have hneL2 : ∀ lv2 ∈ L2, lv2.orderIds ≠ [] := fun lv2 hlv2 => (hgood lv2 hlv2).1
        have hgoodL2 : SideWf (ainsert id { order with status := OrderStatus.CANCELLED } b.orders)
            b.symbol OrderSide.SELL L2 := by
          intro lv2 hlv2
          obtain ⟨hne2, l0, hl0, hp0, hsub⟩ := hgood lv2 hlv2
          refine ⟨hne2, ?_⟩
          intro id2 hid2
          have hid2L2 : id2 ∈ levelsOrderIds L2 := mem_levelsOrderIds_of_mem hlv2 hid2
          have hne3 : id2 ≠ id := by
            intro e
            apply hnotinL2
            rw [hoid, ← e]
            exact hid2L2
          obtain ⟨o3, hl3, h3a, h3b, h3c, h3d, h3e, h3f, h3g⟩ :=
            (hwf.asksGood l0 hl0).2 id2 (hsub hid2)
          refine ⟨o3, ?_, h3a, h3b, h3c, h3d, ?_, h3f, h3g⟩
          · rw [hcong id2 hne3]
            exact hl3
          · rw [← hp0]
            exact h3e
        have hgoodBids : SideWf (ainsert id { order with status := OrderStatus.CANCELLED } b.orders)
            b.symbol OrderSide.BUY b.bidLevels := by
          refine hwf.bidsGood.lookup_congr ?_
          intro id2 hid2
          refine hcong id2 ?_
          intro e
          subst e
          exact hnotbids (by rw [hoid]; exact hid2)
        refine ⟨?_, rfl, ?_⟩
        · refine
            { asksSorted := hwf.asksSorted.sublist hprsub, bidsSorted := hwf.bidsSorted
              asksGood := hgoodL2, bidsGood := hgoodBids, idsNodup := ?_, mapKeyed := ?_
              uncrossed := ?_ }
          · show ((levelsOrderIds b.bidLevels) ++ (levelsOrderIds L2)).Nodup
            have hp2 : ((levelsOrderIds b.bidLevels) ++ levelsOrderIds b.askLevels).Perm
                ((levelsOrderIds b.bidLevels) ++ (order.orderId :: levelsOrderIds L2)) :=
              List.Perm.append_left _ hperm
            have hn2 := hp2.nodup_iff.mp hN
            rw [List.nodup_middle] at hn2
            exact (List.nodup_cons.mp hn2).2
          · exact ainsert_keyed hwf.mapKeyed hoid
          · intro pb' hpb' pa' hpa'
            have hbid : pb' ∈ b.getBestBid := hpb'
            have hpa2 : pa' ∈ (levelPrices L2).head? := by
              rw [← firstPrice_eq_head hneL2]
              exact hpa'
            have hpamem : pa' ∈ levelPrices b.askLevels :=
              hprsub.subset (List.mem_of_mem_head? hpa2)
            have hpa'ge : ∀ hd ∈ (levelPrices b.askLevels).head?, hd ≤ pa' :=
              sorted_head_le_of_mem_drop hwf.asksSorted
                (by rw [List.drop_zero]; exact hpamem)
            have hasksne : b.askLevels ≠ [] := by
              intro he
              rw [he] at hpamem
              simp [levelPrices] at hpamem
            obtain ⟨lv1, ls1, hls1⟩ := List.exists_cons_of_ne_nil hasksne
            have hask : lv1.price ∈ b.getBestAsk := by
              rw [getBestAsk_eq_head hwf.asksGood.nonempty_levels, hls1]
              rfl
            have h1 : pb' < lv1.price := hwf.uncrossed pb' hbid lv1.price hask
            have h2 : lv1.price ≤ pa' := by
              refine hpa'ge lv1.price ?_
              rw [hls1]
              rfl
            exact lt_of_lt_of_le h1 h2
        · exact akeys_ainsert_of_mem _ (mem_akeys_of_alookup hlook)

/-! ### Reachable book states -/

/-- Book states reachable through the public `OrderBook` API: a fresh book,
a successful `add_order` of a freshly constructed order with a globally
unique id, or a successful `cancel_order`. -/
inductive Reachable : OrderBook → Prop
  | empty (symbol : String) : Reachable (OrderBook.empty symbol)
  | add {b : OrderBook} {o : Order} {b' : OrderBook} {ts : List Trade} :
      Reachable b → NewOrderOk b o → b.addOrder o = .ok (b', ts) → Reachable b'
  | cancel {b : OrderBook} {id : String} {b' : OrderBook} {r : Bool} :
      Reachable b → b.cancelOrder id = .ok (b', r) → Reachable b'

theorem empty_bookWf (symbol : String) : BookWf (OrderBook.empty symbol) := by
  refine
    { asksSorted := List.Pairwise.nil, bidsSorted := List.Pairwise.nil
      asksGood := ?_, bidsGood := ?_, idsNodup := List.nodup_nil
      mapKeyed := ?_, uncrossed := ?_ }
  · intro lv hlv
    exact absurd hlv (List.not_mem_nil _)
  · intro lv hlv
    exact absurd hlv (List.not_mem_nil _)
  · intro kv hkv
    exact absurd hkv (List.not_mem_nil _)
  · intro pb hpb
    simp [OrderBook.getBestBid, OrderBook.empty] at hpb

/-- Every reachable book is well-formed. -/
theorem reachable_bookWf {b : OrderBook} (h : Reachable b) : BookWf b := by
  induction h with
  | empty s => exact empty_bookWf s
  | add hR hnew heq ih =>
    obtain ⟨b2, ts2, heq2, out⟩ := OrderBook.addOrder_spec _ _ ih hnew
    rw [heq2] at heq
    injection heq with h1
    injection h1 with hb ht
    subst hb
    exact out.wf
  | cancel hR heq ih => exact (cancelOrder_wf ih heq).1

/-! ### Claim theorems over reachable books -/

/-- SELL LIMIT 1.0 @ 50001, id A1. -/
def orderA1 : Order :=
  ⟨"BTC-USDT", "A1", .LIMIT, .SELL, 1, 50001, 0, 1, .PENDING, []⟩

/-- The book after adding `orderO2` to a fresh BTC-USDT book. -/
def bookB1 : OrderBook :=
  { symbol := "BTC-USDT",
    bidLevels := [⟨50000, ["O2"], 1⟩],
    askLevels := [],
    orders := [("O2", orderO2)] }

instance (b : OrderBook) (o : Order) : Decidable (NewOrderOk b o) := by
  unfold NewOrderOk
  infer_instance

theorem reachable_bookB1 : Reachable bookB1 :=
  Reachable.add (Reachable.empty "BTC-USDT")
    (show NewOrderOk (OrderBook.empty "BTC-USDT") orderO2 by decide)
    (show (OrderBook.empty "BTC-USDT").addOrder orderO2 = .ok (bookB1, []) by decide)

/-- C5 (amended): the book's id map never shrinks — a successful `add_order`
appends exactly the incoming order's id to the key set, deleting nothing
(fully filled makers and never-resting IOC/FOK/fully-matched incomers are
all retained), and a successful `cancel_order` keeps the key set unchanged.
What does hold of the levels of a reachable book is that every resting id
lies in exactly one price level (resting ids are globally distinct) and maps
in the id index to a live resting LIMIT order at that level's price and
side. -/
theorem c5_amended_id_map_retention_and_unique_level (b : OrderBook) (hR : Reachable b) :
    ((bookRestingIds b).Nodup ∧
      SideWf b.orders b.symbol OrderSide.BUY b.bidLevels ∧
      SideWf b.orders b.symbol OrderSide.SELL b.askLevels) ∧
    (∀ o b' ts, NewOrderOk b o → b.addOrder o = .ok (b', ts) →
      akeys b'.orders = akeys b.orders ++ [o.orderId]) ∧
    (∀ id b' r, b.cancelOrder id = .ok (b', r) → akeys b'.orders = akeys b.orders) := by
  have hwf := reachable_bookWf hR
  refine ⟨⟨hwf.idsNodup, hwf.bidsGood, hwf.asksGood⟩, ?_, ?_⟩
  · intro o b' ts hnew heq
    obtain ⟨b2, ts2, heq2, out⟩ := OrderBook.addOrder_spec b o hwf hnew
    rw [heq2] at heq
    injection heq with h1
    injection h1 with hb ht
    subst hb
    exact out.keys_grow
  · intro id b' r heq
    exact (cancelOrder_wf hwf heq).2.2

theorem c5_amended_witness :
    ((bookRestingIds bookB1).Nodup ∧
      SideWf bookB1.orders bookB1.symbol OrderSide.BUY bookB1.bidLevels ∧
      SideWf bookB1.orders bookB1.symbol OrderSide.SELL bookB1.askLevels) ∧
    (∀ o b' ts, NewOrderOk bookB1 o → bookB1.addOrder o = .ok (b', ts) →
      akeys b'.orders = akeys bookB1.orders ++ [o.orderId]) ∧
    (∀ id b' r, bookB1.cancelOrder id = .ok (b', r) → akeys b'.orders = akeys bookB1.orders) :=
  c5_amended_id_map_retention_and_unique_level bookB1 reachable_bookB1

/-- C7: a successful `add_order` on a reachable book never leaves the book
crossed: whenever both sides are non-empty afterwards, best bid < best
ask. -/
theorem c7_no_crossed_book_after_add (b : OrderBook) (o : Order) (b' : OrderBook)
    (ts : List Trade) (hR : Reachable b) (hnew : NewOrderOk b o)
    (h : b.addOrder o = .ok (b', ts)) :
    ∀ pb ∈ b'.getBestBid, ∀ pa ∈ b'.getBestAsk, pb < pa := by
  obtain ⟨b2, ts2, heq2, out⟩ := OrderBook.addOrder_spec b o (reachable_bookWf hR) hnew
  rw [heq2] at h
  injection h with h1
  injection h1 with hb ht
  subst hb
  exact out.wf.uncrossed

/-- `bookB1` after `orderA1` rests on the ask side. -/
def bookB2 : OrderBook :=
  { symbol := "BTC-USDT",
    bidLevels := [⟨50000, ["O2"], 1⟩],
    askLevels := [⟨50001, ["A1"], 1⟩],
    orders := [("O2", orderO2), ("A1", orderA1)] }

theorem c7_witness :
    NewOrderOk bookB1 orderA1 ∧
    (∀ pb ∈ bookB2.getBestBid, ∀ pa ∈ bookB2.getBestAsk, pb < pa) :=
  ⟨by decide,
    c7_no_crossed_book_after_add bookB1 orderA1 bookB2 [] reachable_bookB1 (by decide)
      (by decide)⟩

/-- C6: every trade emitted by a successful `add_order` on a reachable book
carries the resting (maker) order's price — never the incoming price — a
quantity of `min(incoming remaining at the time of the match, maker
remaining)`, and the incoming (taker) order's side as aggressor side; the
makers are consumed in book priority order. -/
theorem c6_trade_fields (b : OrderBook) (o : Order) (b' : OrderBook) (ts : List Trade)
    (hR : Reachable b) (hnew : NewOrderOk b o) (h : b.addOrder o = .ok (b', ts)) :
    ∀ i, ∀ hi : i < ts.length,
      ∃ (hj : i < (oppositeRestingIds b o.side).length) (maker : Order),
        alookup ((oppositeRestingIds b o.side).get ⟨i, hj⟩) b.orders = some maker ∧
        ts.get ⟨i, hi⟩ =
          { symbol := b.symbol, price := maker.price,
            quantity := min (o.remainingQuantity - tradeQtySumTake ts i)
              maker.remainingQuantity,
            makerOrderId := maker.orderId, takerOrderId := o.orderId,
            aggressorSide := o.side } := by
  obtain ⟨b2, ts2, heq2, out⟩ := OrderBook.addOrder_spec b o (reachable_bookWf hR) hnew
  rw [heq2] at h
  injection h with h1
  injection h1 with hb ht
  subst hb
  subst ht
  exact out.aligned

/-- The single trade of the `bookB1 + orderO3` run. -/
def tradeC6 : Trade := ⟨"BTC-USDT", 50000, 1, "O2", "O3", .SELL⟩

/-- `bookB1` after `orderO3` fully matches against O2. -/
def bookB3 : OrderBook :=
  { symbol := "BTC-USDT",
    bidLevels := [],
    askLevels := [],
    orders := [("O2", ⟨"BTC-USDT", "O2", .LIMIT, .BUY, 1, 50000, 1, 0, .FILLED,
                  [⟨"O2", 1, 50000⟩]⟩),
               ("O3", ⟨"BTC-USDT", "O3", .LIMIT, .SELL, 1, 49999, 1, 0, .FILLED,
                  [⟨"O3", 1, 50000⟩]⟩)] }

theorem c6_witness :
    NewOrderOk bookB1 orderO3 ∧
    (∀ i, ∀ hi : i < [tradeC6].length,
      ∃ (hj : i < (oppositeRestingIds bookB1 orderO3.side).length) (maker : Order),
        alookup ((oppositeRestingIds bookB1 orderO3.side).get ⟨i, hj⟩) bookB1.orders =
          some maker ∧
        [tradeC6].get ⟨i, hi⟩ =
          { symbol := bookB1.symbol, price := maker.price,
            quantity := min (orderO3.remainingQuantity - tradeQtySumTake [tradeC6] i)
              maker.remainingQuantity,
            makerOrderId := maker.orderId, takerOrderId := orderO3.orderId,
            aggressorSide := orderO3.side }) :=
  ⟨by decide,
    c6_trade_fields bookB1 orderO3 bookB3 [tradeC6] reachable_bookB1 (by decide) (by decide)⟩

/-- C9 (amended): cancellation is refused exactly from the terminal
statuses FILLED and CANCELLED — `Order.cancel` raises and the engine's
`cancel_order` returns an error with the engine untouched — while from any
other status (PENDING, PARTIALLY_FILLED, and also the never-assigned
REJECTED) `Order.cancel` succeeds and sets the status to CANCELLED. -/
theorem c9_amended_cancel_guard (o : Order) (e : MatchingEngine) (id : String)
    (hlook : alookup id e.allOrders = some o) :
    (o.status = OrderStatus.FILLED ∨ o.status = OrderStatus.CANCELLED →
      o.cancel = .error "Cannot cancel an order in this state" ∧
      e.cancelOrder id = (e, .error "Order cannot be cancelled")) ∧
    (¬ (o.status = OrderStatus.FILLED ∨ o.status = OrderStatus.CANCELLED) →
      o.cancel = .ok { o with status := OrderStatus.CANCELLED }) := by
  constructor
  · intro hterm
    refine ⟨?_, ?_⟩
    · rw [Order.cancel, if_pos hterm]
    · unfold MatchingEngine.cancelOrder
      rw [hlook]
      dsimp only
      rw [if_pos hterm]
  · intro hterm
    rw [Order.cancel, if_neg hterm]

/-- A fully filled order sitting in an engine's `all_orders` index. -/
def orderFX : Order :=
  ⟨"BTC-USDT", "FX", .LIMIT, .BUY, 1, 50000, 1, 0, .FILLED, [⟨"FX", 1, 50000⟩]⟩

/-- An engine holding `orderFX`. -/
def engineC9 : MatchingEngine :=
  { orderBooks := [], trades := [], tradeHistory := [], allOrders := [("FX", orderFX)]
    totalOrdersProcessed := 1, totalTradesExecuted := 0 }

theorem c9_amended_witness :
    alookup "FX" engineC9.allOrders = some orderFX ∧
    (orderFX.cancel = .error "Cannot cancel an order in this state" ∧
      engineC9.cancelOrder "FX" = (engineC9, .error "Order cannot be cancelled")) :=
  ⟨by decide,
    (c9_amended_cancel_guard orderFX engineC9 "FX" (by decide)).1 (Or.inl (by decide))⟩

/-! ### The engine trade-accounting invariant (C10) -/

/-- The engine's trade metrics agree with its trade logs:
`total_trades_executed` equals the length of the global trade list, which
equals the sum of the per-symbol `trade_history` lengths. -/
def EngineInv (e : MatchingEngine) : Prop :=
  e.totalTradesExecuted = e.trades.length ∧
  e.trades.length = ((e.tradeHistory.map (fun kv => kv.2.length)).sum)

theorem hist_sum_ainsert (k : String) (ts : List Trade) :
    ∀ m : List (String × List Trade),
      ((ainsert k ((alookup k m).getD [] ++ ts) m).map (fun kv => kv.2.length)).sum
        = ((m.map (fun kv => kv.2.length)).sum) + ts.length
  | [] => by simp [ainsert, alookup]
  | kv :: rest => by
    by_cases hk : kv.1 = k
    · simp only [ainsert, alookup, if_pos hk, Option.getD_some, List.map_cons, List.sum_cons,
        List.length_append]
      omega
    · simp only [ainsert, alookup, if_neg hk, List.map_cons, List.sum_cons]
      rw [hist_sum_ainsert k ts rest]
      omega

/-- C10: `submit_order` preserves the trade-accounting invariant; an error
result leaves the trade logs and both counters untouched, and a success
result appends the executed trades exactly once to the global list and
exactly once to the created order's symbol history, increments
`total_orders_processed` by one — which thus only happens for submissions
whose validation succeeded — and bumps `total_trades_executed` by the
number of executed trades. -/
theorem c10_engine_trade_counters (e : MatchingEngine) (req : OrderRequest) (gid : String)
    (e' : MatchingEngine) (res : EngineResult)
    (hinv : EngineInv e) (h : e.submitOrder req gid = (e', res)) :
    EngineInv e' ∧
    (∀ msg, res = .error msg →
      e'.trades = e.trades ∧ e'.tradeHistory = e.tradeHistory ∧
      e'.totalOrdersProcessed = e.totalOrdersProcessed ∧
      e'.totalTradesExecuted = e.totalTradesExecuted) ∧
    (∀ fo ts, res = .success fo ts →
      ∃ o, MatchingEngine.createOrderFromRequest req gid = .ok o ∧
        e'.trades = e.trades ++ ts ∧
        e'.tradeHistory = ainsert o.symbol (historyFor e o.symbol ++ ts) e.tradeHistory ∧
        e'.totalOrdersProcessed = e.totalOrdersProcessed + 1 ∧
        e'.totalTradesExecuted = e.totalTradesExecuted + ts.length) := by
  unfold MatchingEngine.submitOrder at h
  cases hcr : MatchingEngine.createOrderFromRequest req gid with
  | error msg =>
    rw [hcr] at h
    injection h with he hres
    subst he
    subst hres
    exact ⟨hinv, fun msg2 _ => ⟨rfl, rfl, rfl, rfl⟩,
      fun fo ts hsf => EngineResult.noConfusion hsf⟩
  | ok order =>
    rw [hcr] at h
    dsimp only at h
    by_cases hq : order.remainingQuantity ≤ 0
    · rw [if_pos hq] at h
      injection h with he hres
      subst he
      subst hres
      exact ⟨hinv, fun msg2 _ => ⟨rfl, rfl, rfl, rfl⟩,
        fun fo ts hsf => EngineResult.noConfusion hsf⟩
    · rw [if_neg hq] at h
      cases hadd : ((alookup order.symbol e.orderBooks).getD
          (OrderBook.empty order.symbol)).addOrder order with
      | error msg =>
        rw [hadd] at h
        dsimp only at h
        injection h with he hres
        subst he
        subst hres
        exact ⟨hinv, fun msg2 _ => ⟨rfl, rfl, rfl, rfl⟩,
          fun fo ts hsf => EngineResult.noConfusion hsf⟩
      | ok pr =>
        obtain ⟨book', tradesDone⟩ := pr
        rw [hadd] at h
        dsimp only at h
        injection h with he hres
        subst he
        subst hres
        refine ⟨⟨?_, ?_⟩, ?_, ?_⟩
        · show e.totalTradesExecuted + tradesDone.length = (e.trades ++ tradesDone).length
          rw [List.length_append, hinv.1]
        · show (e.trades ++ tradesDone).length =
            ((ainsert order.symbol ((alookup order.symbol e.tradeHistory).getD [] ++ tradesDone)
              e.tradeHistory).map (fun kv => kv.2.length)).sum
          rw [List.length_append, hist_sum_ainsert, ← hinv.2]
        · intro msg2 hres2
          exact EngineResult.noConfusion hres2
        · intro fo ts hsf
          injection hsf with hfo hts
          subst hts
          exact ⟨order, rfl, rfl, rfl, rfl, rfl⟩

/-- A valid LIMIT-buy submission (mixed-case fields, as the engine
normalizes them). -/
def reqC10 : OrderRequest :=
  { symbol := some "btc-usdt", orderType := some "LIMIT", side := some "Buy",
    quantity := some 1, price := some 50000, orderId := some "O10" }

/-- The order `reqC10` creates. -/
def orderO10 : Order :=
  ⟨"BTC-USDT", "O10", .LIMIT, .BUY, 1, 50000, 0, 1, .PENDING, []⟩

/-- The engine after submitting `reqC10` to a fresh engine. -/
def engineC10 : MatchingEngine :=
  { orderBooks := [("BTC-USDT",
      { symbol := "BTC-USDT",
        bidLevels := [⟨50000, ["O10"], 1⟩],
        askLevels := [],
        orders := [("O10", orderO10)] })],
    trades := [],
    tradeHistory := [("BTC-USDT", [])],
    allOrders := [("O10", orderO10)],
    totalOrdersProcessed := 1,
    totalTradesExecuted := 0 }

theorem c10_witness :
    EngineInv MatchingEngine.init ∧ EngineInv engineC10 :=
  ⟨⟨rfl, rfl⟩,
    (c10_engine_trade_counters MatchingEngine.init reqC10 "G1" engineC10
      (.success orderO10 []) ⟨rfl, rfl⟩ (by decide)).1⟩
